import Mathlib

/-!
# filecopy: a recursive copy of regular files, symbolic links and directories

A shallow embedding of `filecopy.c` and the properties of its path composition,
its copy loop, its dispatch on file types and its error handling.

C strings are lists of characters (the characters before the terminating NUL).
-/

namespace Filecopy

/-! ## Strings and paths -/

/-- The characters of a C string, without the terminating NUL. -/
abbrev CString := List Char

/-- The length of a C string, as `strlen(3)` reports it. -/
def strlen (s : CString) : Nat := s.length

/-- The path separator test. -/
def isSlash (c : Char) : Bool := c == '/'

/-- The `basename(3)` that `get_compath` calls. The program includes
`<libgen.h>`, so this is the POSIX function of the C library: the empty path
gives ".", a path made of '/' characters only gives "/", any other path gives
what follows the last '/' once the trailing '/' characters are removed. -/
def basename (path : CString) : CString :=
  if path = [] then ['.']
  else if path.rdropWhile isSlash = [] then ['/']
  else (path.rdropWhile isSlash).rtakeWhile (fun c => !isSlash c)

/-- The size of the buffer `get_compath` allocates: `dd_len+src_len+2`. -/
def get_compath_sz (src dst_dir : CString) : Nat :=
  strlen dst_dir + strlen src + 2

/-- The path `get_compath` composes: `sprintf(toret, "%s/%s", dst_dir, filename)`
with `filename = basename(src_dup)`. -/
def get_compath (src dst_dir : CString) : CString :=
  dst_dir ++ '/' :: basename src

/-- A proper entry name: non-empty and without a '/'. -/
def proper_name (n : CString) : Prop := n ≠ [] ∧ ∀ c ∈ n, c ≠ '/'

/-- The components of a path: the pieces between its '/' characters. -/
def components : CString → List CString
  | [] => [[]]
  | c :: cs =>
    if c = '/' then [] :: components cs
    else match components cs with
      | [] => [[c]]
      | h :: t => (c :: h) :: t

/-- The basename in the words of the specification: the final path component
of the path once its trailing '/' characters are ignored. -/
def final_component (S : CString) : CString :=
  ((components (S.rdropWhile isSlash)).getLast?).getD []

/-! ## The file system

Entries are stored under their location: the list of names that leads to them
from the root. Every location holds its own entry: there are no hard links.
Path resolution follows symbolic links: always in the middle of
a path, and in its last position for the calls that do so (`open`, `opendir`,
`access`, `utimensat` without `AT_SYMLINK_NOFOLLOW`) but not for the others
(`lstat`, `readlink`, `symlink`, `mkdir`). The model has no permission checks
and no clock. Any call can moreover be made to fail by the list `faults` of
the state, which stands for the failures the model does not compute (EACCES,
ENOSPC, EIO, ...).

A `write` writes all the bytes it is given; only a regular file keeps them. A
directory stream holds the entries the directory had when it was opened, and
`readdir` does not fail. Creating an entry leaves the timestamps of its
directory alone.
-/

/-- A point in time, as `struct timespec`. -/
structure timespec where
  tv_sec : Int
  tv_nsec : Int
deriving DecidableEq, Repr

/-- The fields of `struct stat` the program reads. -/
structure stat where
  st_mode : Nat
  st_atim : timespec
  st_mtim : timespec
deriving DecidableEq, Repr

/-- The location of an entry: the names from the root down to it. -/
abbrev Key := List CString

/-- An entry of the file system: its mode (type and permission bits), its
timestamps, its bytes when it is a regular file and its target when it is a
symbolic link. -/
structure Inode where
  st_mode : Nat
  st_atim : timespec
  st_mtim : timespec
  data : List Nat
  target : CString
deriving DecidableEq, Repr

abbrev FS := List (Key × Inode)

def S_IFMT : Nat := 0o170000
def S_IFLNK : Nat := 0o120000
def S_IFREG : Nat := 0o100000
def S_IFDIR : Nat := 0o040000
def S_IFIFO : Nat := 0o010000

def S_ISLNK (m : Nat) : Bool := m &&& S_IFMT == S_IFLNK
def S_ISREG (m : Nat) : Bool := m &&& S_IFMT == S_IFREG
def S_ISDIR (m : Nat) : Bool := m &&& S_IFMT == S_IFDIR

def ENOENT : Nat := 2
def EIO : Nat := 5
def EBADF : Nat := 9
def EACCES : Nat := 13
def EEXIST : Nat := 17
def ENOTDIR : Nat := 20
def EISDIR : Nat := 21
def EINVAL : Nat := 22
def ENOSPC : Nat := 28
def ELOOP : Nat := 40

def MAXPATH : Nat := 4096

/-- The number of symbolic links one path resolution follows before it fails
with ELOOP. -/
def MAXSYMLINKS : Nat := 40

def fs_get : FS → Key → Option Inode
  | [], _ => none
  | (k', i) :: r, k => if k' = k then some i else fs_get r k

def fs_set : FS → Key → Inode → FS
  | [], k, i => [(k, i)]
  | (k', i') :: r, k, i => if k' = k then (k, i) :: r else (k', i') :: fs_set r k i

/-- The names of the entries stored directly under the location `k`. -/
def fs_children (fs : FS) (k : Key) : List CString :=
  fs.filterMap (fun e => if e.1.dropLast = k then e.1.getLast? else none)

/-- Path resolution over the components of a path, from the directory at `k`.
Every component is looked up in a directory that exists: the empty component
and "." stay there, ".." goes to the parent, a name goes to the entry of that
name. When that entry is a symbolic link it is followed if components remain
after it, and also in the last position if `last` is set: `follow` then
resolves the target of the link, from the directory the link is in, with the
components that remain. The location of the last component need not exist. -/
def walk_comps (fs : FS) (follow : Key → CString → List CString → Except Nat Key)
    (last : Bool) : Key → List CString → Except Nat Key
  | k, [] => .ok k
  | k, c :: cs =>
    match fs_get fs k with
    | none => .error ENOENT
    | some i =>
      if S_ISDIR i.st_mode then
        if c = [] ∨ c = ['.'] then walk_comps fs follow last k cs
        else if c = ['.', '.'] then walk_comps fs follow last k.dropLast cs
        else
          match fs_get fs (k ++ [c]) with
          | some l =>
            if S_ISLNK l.st_mode && (last || !cs.isEmpty) then follow k l.target cs
            else walk_comps fs follow last (k ++ [c]) cs
          | none => walk_comps fs follow last (k ++ [c]) cs
      else .error ENOTDIR

/-- Path resolution that follows at most `n` symbolic links: the target of a
link is resolved from the root when it starts with '/', from the directory of
the link otherwise, and the link after the last one allowed gives ELOOP. -/
def walk (fs : FS) (last : Bool) : Nat → Key → List CString → Except Nat Key
  | 0 => walk_comps fs (fun _ _ _ => .error ELOOP) last
  | n + 1 =>
    walk_comps fs (fun k target rest =>
      walk fs last n (if target.head? = some '/' then [] else k) (components target ++ rest)) last

/-- An open file description. -/
structure OpenFile where
  key : Key
  pos : Nat
  writable : Bool
deriving DecidableEq, Repr

/-- A line written to the standard error stream: the format, its argument and,
when `perror` follows, the value of `errno` it reports. -/
structure Msg where
  fmt : String
  arg : CString
  err : Option Nat
deriving DecidableEq, Repr

/-- The system calls, with their arguments, in the order they were issued. -/
inductive Event where
  | lstat (path : CString)
  | open_rdonly (path : CString)
  | open_creat (path : CString) (mode : Nat)
  | read (fd : Nat) (count : Nat)
  | write (fd : Nat) (bytes : List Nat)
  | futimens (fd : Nat) (atim mtim : timespec)
  | close (fd : Nat)
  | readlink (path : CString) (bufsiz : Nat)
  | symlink (target linkpath : CString)
  | utimensat (path : CString) (atim mtim : timespec) (nofollow : Bool)
  | mkdir (path : CString) (mode : Nat)
  | opendir (path : CString)
  | readdir (stream : Nat)
  | access (path : CString)
deriving DecidableEq, Repr

/-- The state of the process and of the file system it works on. -/
structure World where
  /-- The working directory of the process. -/
  cwd : Key
  /-- The file mode creation mask of the process. -/
  umask : Nat
  /-- The time given to the entries the process creates. -/
  now : timespec
  fs : FS
  /-- The open file descriptors. -/
  fds : List (Nat × OpenFile)
  /-- The open directory streams, each with the entries still to be read. -/
  dirs : List (Nat × List CString)
  errno : Nat
  /-- For each of the following system calls, the error it is made to fail with. -/
  faults : List (Option Nat)
  trace : List Event
  stderr : List Msg
  /-- What an uninitialised `char` array of the stack reads as a C string. -/
  stack : CString
deriving DecidableEq, Repr

/-- The outcome of an operation: it returns to its caller, it terminates the
process with `exit(EXIT_FAILURE)`, or the evaluation ran out of fuel. -/
inductive Result where
  | ok (w : World)
  | fatal (w : World)
  | out_of_fuel
deriving DecidableEq, Repr

/-- The start of a system call: it is recorded and takes the next entry of
`faults`. -/
def enter (ev : Event) (w : World) : World :=
  { w with trace := w.trace ++ [ev], faults := w.faults.tail }

def set_errno (e : Nat) (w : World) : World :=
  { w with errno := e }

/-- The error `faults` injects into the next system call. The code EEXIST is
not injected: whether a name is taken is computed from the file system. -/
def injected (w : World) : Option Nat :=
  match w.faults.head? with
  | some (some e) => if e = EEXIST then none else some e
  | _ => none

/-- The frame of every system call: the call is recorded, it fails with the
error `faults` injects if there is one, and a failure leaves its code in
`errno`. -/
def syscall {α : Type} (ev : Event) (body : World → Except Nat (α × World))
    (w : World) : Option α × World :=
  match injected w with
  | some e => (none, set_errno e (enter ev w))
  | none =>
    match body (enter ev w) with
    | .error e => (none, set_errno e (enter ev w))
    | .ok (a, w1) => (some a, w1)

/-- The location a path resolves to: from the root for a path that starts with
'/', from the working directory otherwise. With `last` a symbolic link in the
last position is followed. -/
def resolve (w : World) (last : Bool) (path : CString) : Except Nat Key :=
  if path = [] then .error ENOENT
  else walk w.fs last MAXSYMLINKS (if path.head? = some '/' then [] else w.cwd) (components path)

/-- The entry a path resolves to, with its location. -/
def lookup_at (w : World) (last : Bool) (path : CString) : Except Nat (Key × Inode) :=
  match resolve w last path with
  | .error e => .error e
  | .ok k =>
    match fs_get w.fs k with
    | none => .error ENOENT
    | some i => .ok (k, i)

/-- The entry a path names, with its location: a symbolic link in the last
position is the entry itself, as for `lstat`. -/
def lookup (w : World) (path : CString) : Except Nat (Key × Inode) :=
  lookup_at w false path

/-- The entry a path leads to, with its location: a symbolic link in the last
position is followed, as for `open`. -/
def lookup_follow (w : World) (path : CString) : Except Nat (Key × Inode) :=
  lookup_at w true path

/-- The location at which a path asks for a new entry (`mkdir`, `symlink`): a
symbolic link in the last position counts as an entry that exists. -/
def lookup_new (w : World) (path : CString) : Except Nat Key :=
  match resolve w false path with
  | .error e => .error e
  | .ok k =>
    match fs_get w.fs k with
    | none => if k = [] then .error ENOENT else .ok k
    | some _ => .error EEXIST

/-- The permission bits an entry is created with. -/
def create_mode (w : World) (mode : Nat) : Nat :=
  (mode ^^^ (mode &&& w.umask)) &&& 0o7777

def fresh_fd (fds : List (Nat × OpenFile)) : Nat :=
  fds.foldl (fun m e => max m (e.1 + 1)) 3

def fresh_stream (dirs : List (Nat × List CString)) : Nat :=
  dirs.foldl (fun m e => max m (e.1 + 1)) 0

def sys_lstat (path : CString) : World → Option stat × World :=
  syscall (.lstat path) fun w =>
    match lookup w path with
    | .error e => .error e
    | .ok (_, i) => .ok (⟨i.st_mode, i.st_atim, i.st_mtim⟩, w)

/-- The call `open(path, O_RDONLY)`: a symbolic link is followed. -/
def sys_open_rdonly (path : CString) : World → Option Nat × World :=
  syscall (.open_rdonly path) fun w =>
    match lookup_follow w path with
    | .error e => .error e
    | .ok (k, _) =>
      .ok (fresh_fd w.fds, { w with fds := (fresh_fd w.fds, ⟨k, 0, false⟩) :: w.fds })

/-- The call `open(path, O_WRONLY | O_TRUNC | O_CREAT, mode)`. The flags hold
neither `O_NOFOLLOW` nor `O_EXCL`: a symbolic link at the path is followed, and
the file is created where the path leads when nothing is there (at the target
of a dangling link as well). A regular file that exists is truncated; any other
entry that is not a directory (a device for instance) is opened as it is. -/
def sys_open_creat (path : CString) (mode : Nat) : World → Option Nat × World :=
  syscall (.open_creat path mode) fun w =>
    match resolve w true path with
    | .error e => .error e
    | .ok k =>
      match fs_get w.fs k with
      | some i =>
        if S_ISDIR i.st_mode then .error EISDIR
        else if S_ISREG i.st_mode then
          .ok (fresh_fd w.fds,
            { w with fs := fs_set w.fs k { i with data := [] },
                     fds := (fresh_fd w.fds, ⟨k, 0, true⟩) :: w.fds })
        else .ok (fresh_fd w.fds, { w with fds := (fresh_fd w.fds, ⟨k, 0, true⟩) :: w.fds })
      | none =>
        if k = [] then .error ENOENT
        else
          .ok (fresh_fd w.fds,
            { w with fs := fs_set w.fs k ⟨S_IFREG ||| create_mode w mode, w.now, w.now, [], []⟩,
                     fds := (fresh_fd w.fds, ⟨k, 0, true⟩) :: w.fds })

def fd_get (fds : List (Nat × OpenFile)) (fd : Nat) : Option OpenFile :=
  (fds.find? (fun e => e.1 == fd)).map (·.2)

def fd_set (fds : List (Nat × OpenFile)) (fd : Nat) (f : OpenFile) : List (Nat × OpenFile) :=
  fds.map (fun e => if e.1 = fd then (fd, f) else e)

/-- The call `read(fd, buffer, count)`: the bytes placed in the buffer. -/
def sys_read (fd count : Nat) : World → Option (List Nat) × World :=
  syscall (.read fd count) fun w =>
    match fd_get w.fds fd with
    | none => .error EBADF
    | some f =>
      if f.writable then .error EBADF
      else
        match fs_get w.fs f.key with
        | none => .error EIO
        | some i =>
          if S_ISDIR i.st_mode then .error EISDIR
          else
            let buffer := (i.data.drop f.pos).take count
            .ok (buffer,
              { w with fds := fd_set w.fds fd { f with pos := f.pos + buffer.length } })

/-- The call `write(fd, buffer, count)` with `bytes` the first `count` bytes of
the buffer: all of them are written. A regular file keeps them at the offset
of the descriptor; an entry of another type (a device for instance) takes them
and keeps none. -/
def sys_write (fd : Nat) (bytes : List Nat) : World → Option Nat × World :=
  syscall (.write fd bytes) fun w =>
    match fd_get w.fds fd with
    | none => .error EBADF
    | some f =>
      if !f.writable then .error EBADF
      else
        match fs_get w.fs f.key with
        | none => .error EIO
        | some i =>
          if S_ISREG i.st_mode then
            let data := i.data.take f.pos ++ bytes ++ i.data.drop (f.pos + bytes.length)
            .ok (bytes.length,
              { w with fs := fs_set w.fs f.key { i with data := data },
                       fds := fd_set w.fds fd { f with pos := f.pos + bytes.length } })
          else
            .ok (bytes.length,
              { w with fds := fd_set w.fds fd { f with pos := f.pos + bytes.length } })

def sys_futimens (fd : Nat) (atim mtim : timespec) : World → Option Unit × World :=
  syscall (.futimens fd atim mtim) fun w =>
    match fd_get w.fds fd with
    | none => .error EBADF
    | some f =>
      match fs_get w.fs f.key with
      | none => .error EIO
      | some i => .ok ((), { w with fs := fs_set w.fs f.key { i with st_atim := atim, st_mtim := mtim } })

/-- The call `close(fd)`: the descriptor is released even when the call
reports an error. -/
def sys_close (fd : Nat) (w : World) : Option Unit × World :=
  match syscall (.close fd) (fun w =>
      match fd_get w.fds fd with
      | none => .error EBADF
      | some _ => .ok ((), w)) w with
  | (r, w1) => (r, { w1 with fds := w1.fds.filter (fun e => e.1 != fd) })

/-- The call `readlink(path, buffer, bufsiz)`: the bytes placed in the buffer. -/
def sys_readlink (path : CString) (bufsiz : Nat) : World → Option CString × World :=
  syscall (.readlink path bufsiz) fun w =>
    match lookup w path with
    | .error e => .error e
    | .ok (_, i) =>
      if S_ISLNK i.st_mode then .ok (i.target.take bufsiz, w) else .error EINVAL

def sys_symlink (target linkpath : CString) : World → Option Unit × World :=
  syscall (.symlink target linkpath) fun w =>
    if target = [] then .error ENOENT
    else
      match lookup_new w linkpath with
      | .error e => .error e
      | .ok k =>
        .ok ((), { w with fs := fs_set w.fs k ⟨S_IFLNK ||| 0o777, w.now, w.now, [], target⟩ })

/-- The call `utimensat(AT_FDCWD, path, times, flags)`, with `nofollow` for
the flag `AT_SYMLINK_NOFOLLOW`: without it a symbolic link is followed. -/
def sys_utimensat (path : CString) (atim mtim : timespec) (nofollow : Bool) :
    World → Option Unit × World :=
  syscall (.utimensat path atim mtim nofollow) fun w =>
    match lookup_at w (!nofollow) path with
    | .error e => .error e
    | .ok (k, i) =>
      .ok ((), { w with fs := fs_set w.fs k { i with st_atim := atim, st_mtim := mtim } })

def sys_mkdir (path : CString) (mode : Nat) : World → Option Unit × World :=
  syscall (.mkdir path mode) fun w =>
    match lookup_new w path with
    | .error e => .error e
    | .ok k =>
      .ok ((), { w with fs := fs_set w.fs k ⟨S_IFDIR ||| create_mode w mode, w.now, w.now, [], []⟩ })

/-- The call `opendir(path)`: a symbolic link is followed, and the stream
holds the entries of the directory, "." and ".." first. -/
def sys_opendir (path : CString) : World → Option Nat × World :=
  syscall (.opendir path) fun w =>
    match lookup_follow w path with
    | .error e => .error e
    | .ok (k, i) =>
      if S_ISDIR i.st_mode then
        .ok (fresh_stream w.dirs,
          { w with dirs := (fresh_stream w.dirs, ['.'] :: ['.', '.'] :: fs_children w.fs k) :: w.dirs })
      else .error ENOTDIR

def dir_get (dirs : List (Nat × List CString)) (stream : Nat) : Option (List CString) :=
  (dirs.find? (fun e => e.1 == stream)).map (·.2)

def dir_set (dirs : List (Nat × List CString)) (stream : Nat) (r : List CString) :
    List (Nat × List CString) :=
  dirs.map (fun e => if e.1 = stream then (stream, r) else e)

/-- The call `readdir(stream)`: the next entry of the stream, or nothing at
its end. The call takes no entry of `faults`. -/
def sys_readdir (stream : Nat) (w : World) : Option CString × World :=
  match dir_get w.dirs stream with
  | none => (none, { w with trace := w.trace ++ [.readdir stream], errno := EBADF })
  | some [] => (none, { w with trace := w.trace ++ [.readdir stream] })
  | some (n :: r) =>
    (some n, { w with trace := w.trace ++ [.readdir stream], dirs := dir_set w.dirs stream r })

/-- The call `access(path, X_OK | W_OK)`: a symbolic link is followed. -/
def sys_access (path : CString) : World → Option Unit × World :=
  syscall (.access path) fun w =>
    match lookup_follow w path with
    | .error e => .error e
    | .ok _ => .ok ((), w)

/-! ## The program

Memory allocation (`strdup`, `malloc`) is taken to succeed. The chunk size
`BUFSIZ` of `<stdio.h>` is a parameter. The loops and the recursion take a
fuel argument: `out_of_fuel` is the outcome of an evaluation that was given
too little of it, not a behaviour of the program.
-/

/-- Appends a line to the standard error stream. -/
def eprint (m : Msg) (w : World) : World :=
  { w with stderr := w.stderr ++ [m] }

/-- The macro `EXITMSG`: the message, the text of `errno`, `exit(EXIT_FAILURE)`. -/
def EXITMSG (fmt : String) (arg : CString) (w : World) : Result :=
  .fatal (eprint ⟨fmt, arg, some w.errno⟩ w)

def USAGE : String := "Usage: %s <reg file> <sym link> <dir> ... <dest dir>"

/-- The loop `do ... while (BUFSIZ == byte_read)` of `copy_file`. -/
def copy_file_loop (BUFSIZ : Nat) (src complete_path : CString) (ds dd : Nat) :
    Nat → World → Result
  | 0, _ => .out_of_fuel
  | fuel + 1, w =>
    match sys_read ds BUFSIZ w with
    | (none, w1) => EXITMSG "copy_file(): read() error on %s" src w1
    | (some buffer, w1) =>
      match sys_write dd buffer w1 with
      | (none, w2) => EXITMSG "copy_file(): write() error on %s" complete_path w2
      | (some _, w2) =>
        if BUFSIZ = buffer.length then copy_file_loop BUFSIZ src complete_path ds dd fuel w2
        else .ok w2

def copy_file (BUFSIZ fuel : Nat) (src dst : CString) (src_stat : stat) (w : World) : Result :=
  let complete_path := get_compath src dst
  match sys_open_rdonly src w with
  | (none, w1) => EXITMSG "copy_file(): open() error on %s" src w1
  | (some ds, w1) =>
    match sys_open_creat complete_path src_stat.st_mode w1 with
    | (none, w2) => EXITMSG "copy_file(): open() error on %s" complete_path w2
    | (some dd, w2) =>
      match copy_file_loop BUFSIZ src complete_path ds dd fuel w2 with
      | .ok w3 =>
        let w4 :=
          match sys_futimens dd src_stat.st_atim src_stat.st_mtim w3 with
          | (none, w) => eprint ⟨"copy_file(): futimens() error on %s : ", complete_path, some w.errno⟩ w
          | (some _, w) => w
        let w5 :=
          match sys_close ds w4 with
          | (none, w) => eprint ⟨"copy_file(): close() error on %s : ", src, some w.errno⟩ w
          | (some _, w) => w
        let w6 :=
          match sys_close dd w5 with
          | (none, w) => eprint ⟨"copy_file(): close() error on %s : ", complete_path, some w.errno⟩ w
          | (some _, w) => w
        .ok w6
      | r => r

/-- The function `copy_slink`. The value of `readlink` is compared with
`MAXPATH` only; when the call fails (-1) the buffer keeps what the stack held,
and the store `buffer[copiati] = 0`, which then falls outside the buffer, is
not represented. The test `errno = EEXIST` is an assignment: it stores
`EEXIST` and is true when that value is not zero. The times are built from
`st_atime` and `st_mtime`, the seconds, and their `tv_nsec` is left zero. -/
def copy_slink (src dst : CString) (_src_stat : stat) (w : World) : Result :=
  match sys_readlink src MAXPATH w with
  | (r, w1) =>
    let copiati : Int := match r with
      | none => -1
      | some b => b.length
    if copiati = MAXPATH then EXITMSG "copy_slink(): symlink path too long" [] w1
    else
      let buffer : CString := match r with
        | none => w1.stack
        | some b => b
      let dst_path := get_compath src dst
      match sys_symlink buffer dst_path w1 with
      | (none, w2) =>
        let w3 := { w2 with errno := EEXIST }
        if w3.errno ≠ 0 then
          .ok (eprint ⟨"copy_slink(): ignored copy of %s : ", src, some w3.errno⟩ w3)
        else EXITMSG "copy_slink(): symlink() error on %s" buffer w3
      | (some _, w2) =>
        match sys_lstat src w2 with
        | (none, w3) => .ok (eprint ⟨"Error on gathering lstat on %s : ", src, some w3.errno⟩ w3)
        | (some napoli, w3) =>
          match sys_utimensat dst_path ⟨napoli.st_atim.tv_sec, 0⟩ ⟨napoli.st_mtim.tv_sec, 0⟩
              true w3 with
          | (none, w4) =>
            .ok (eprint ⟨"Error on setting metadata on %s : ", src, some w4.errno⟩ w4)
          | (some _, w4) => .ok w4

/-- The loop `while ((entry = readdir(sd_stream)))` of `copy_dir`, with `rec`
for `copy_discern`. -/
def copy_dir_loop (rec : CString → CString → World → Result)
    (sd_path dd_compath : CString) (sd_stream : Nat) : Nat → World → Result
  | 0, _ => .out_of_fuel
  | fuel + 1, w =>
    match sys_readdir sd_stream w with
    | (none, w1) => .ok w1
    | (some d_name, w1) =>
      if d_name = ['.'] ∨ d_name = ['.', '.'] then
        copy_dir_loop rec sd_path dd_compath sd_stream fuel w1
      else
        match rec (sd_path ++ '/' :: d_name) dd_compath w1 with
        | .ok w2 => copy_dir_loop rec sd_path dd_compath sd_stream fuel w2
        | r => r

/-- The second part of `copy_dir`, from the timestamps on: `dd_compath` is the
composed path of the destination directory. The stream of `opendir` is not
closed. -/
def copy_dir_fill (rec : CString → CString → World → Result) (fuel : Nat)
    (sd_path dd_compath : CString) (src_stat : stat) (w1 : World) : Result :=
  let w2 :=
    match sys_utimensat dd_compath src_stat.st_atim src_stat.st_mtim false w1 with
    | (none, w) => eprint ⟨"copy_dir(): utimensat() error on %s\n", dd_compath, some w.errno⟩ w
    | (some _, w) => w
  match sys_opendir sd_path w2 with
  | (none, w3) => EXITMSG "copy_dir(): opendir() error on %s" sd_path w3
  | (some sd_stream, w3) => copy_dir_loop rec sd_path dd_compath sd_stream fuel w3

/-- The function `copy_dir`, with `rec` for `copy_discern`: the creation of the
destination directory, then `copy_dir_fill`. -/
def copy_dir (rec : CString → CString → World → Result) (fuel : Nat)
    (sd_path dd_1path : CString) (src_stat : stat) (w : World) : Result :=
  let dd_compath := get_compath sd_path dd_1path
  match sys_mkdir dd_compath src_stat.st_mode w with
  | (none, w1) =>
    if w1.errno = EEXIST then
      copy_dir_fill rec fuel sd_path dd_compath src_stat
        (eprint ⟨"copy_dir(): ignored copy of %s : ", sd_path, some w1.errno⟩ w1)
    else EXITMSG "copy_dir(): mkdir() error of %s" dd_compath w1
  | (some _, w1) => copy_dir_fill rec fuel sd_path dd_compath src_stat w1

def copy_discern (BUFSIZ : Nat) : Nat → CString → CString → World → Result
  | 0, _, _, _ => .out_of_fuel
  | fuel + 1, src, dst, w =>
    match sys_lstat src w with
    | (none, w1) => EXITMSG "Error on gathering stat on %s" src w1
    | (some napoli, w1) =>
      if S_ISLNK napoli.st_mode then copy_slink src dst napoli w1
      else if S_ISREG napoli.st_mode then copy_file BUFSIZ fuel src dst napoli w1
      else if S_ISDIR napoli.st_mode then
        copy_dir (copy_discern BUFSIZ fuel) fuel src dst napoli w1
      else .ok (eprint ⟨"%s : Wrong file type\n", src, none⟩ w1)

/-- The loop `for (int i = 1; i <= argc-2; i++)` of `check_args_iterate_paths`. -/
def iterate_paths (BUFSIZ fuel : Nat) (dst : CString) : List CString → World → Result
  | [], w => .ok w
  | src :: rest, w =>
    match copy_discern BUFSIZ fuel src dst w with
    | .ok w1 => iterate_paths BUFSIZ fuel dst rest w1
    | r => r

def check_args_iterate_paths (BUFSIZ fuel : Nat) (argv : List CString) (w : World) : Result :=
  if argv.length < 3 then EXITMSG USAGE (argv.headD []) w
  else
    match sys_access (argv.getLastD []) w with
    | (none, w1) => EXITMSG "access() error on destination folder" [] w1
    | (some _, w1) => iterate_paths BUFSIZ fuel (argv.getLastD []) (argv.tail.dropLast) w1

/-! ## Reading results -/

/-- The state an operation ended in. -/
def Result.world : Result → Option World
  | .ok w => some w
  | .fatal w => some w
  | .out_of_fuel => none

def Result.is_ok : Result → Bool
  | .ok _ => true
  | _ => false

def Result.is_fatal : Result → Bool
  | .fatal _ => true
  | _ => false

/-- The type bits of a mode. -/
def file_type (m : Nat) : Nat := m &&& S_IFMT

/-- The type of the entry a path names, when there is one. -/
def type_at (w : World) (path : CString) : Option Nat :=
  match lookup w path with
  | .ok (_, i) => some (file_type i.st_mode)
  | .error _ => none

/-- The type of the entry a path names once the operation has ended. -/
def Result.type_at (r : Result) (path : CString) : Option Nat :=
  r.world.bind (fun w => Filecopy.type_at w path)

/-- The access and modification times of the entry a path names. -/
def times_at (w : World) (path : CString) : Option (timespec × timespec) :=
  match lookup w path with
  | .ok (_, i) => some (i.st_atim, i.st_mtim)
  | .error _ => none

/-- The target of the symbolic link a path names. -/
def target_at (w : World) (path : CString) : Option CString :=
  match lookup w path with
  | .ok (_, i) => if S_ISLNK i.st_mode then some i.target else none
  | .error _ => none

/-- The bytes of the entry a path leads to, a symbolic link followed. -/
def data_at (w : World) (path : CString) : Option (List Nat) :=
  match lookup_follow w path with
  | .ok (_, i) => some i.data
  | .error _ => none

/-- Every entry of `fs` is an entry of `fs'`, with the same mode and the same
target. -/
def fs_le (fs fs' : FS) : Prop :=
  ∀ k i, fs_get fs k = some i →
    ∃ i', fs_get fs' k = some i' ∧ i'.st_mode = i.st_mode ∧ i'.target = i.target

/-- What no step of a run undoes: the working directory stays, an entry that
exists keeps existing with the same mode and target, what was written to the
standard error stream stays, the directory streams that were open keep their
entries, and the trace grows. -/
structure Step (w w' : World) : Prop where
  cwd : w'.cwd = w.cwd
  fs : fs_le w.fs w'.fs
  err : w.stderr <+: w'.stderr
  dirs : ∀ s, s < fresh_stream w.dirs → dir_get w'.dirs s = dir_get w.dirs s
  fresh : fresh_stream w.dirs ≤ fresh_stream w'.dirs
  trace : w.trace <+: w'.trace

/-- The state an operation ends in, if any, is reached by steps from `w`. -/
def Result.steps_from (w : World) (r : Result) : Prop :=
  ∀ w', r.world = some w' → Step w w'

/-- A resolution that gave the location `r` in `fs` gives it in `fs'` as well:
the last link is not followed, or `r` held an entry in `fs`, or what `fs'`
holds at `r` is not a symbolic link. -/
def stays (fs fs' : FS) (last : Bool) (r : Key) : Prop :=
  last = false ∨ fs_get fs r ≠ none ∨ ∀ l, fs_get fs' r = some l → S_ISLNK l.st_mode = false

/-! ## A small file system for the examples -/

/-- The regular file `src/a.txt` of `demo_fs`: the bytes of "hello". -/
def demo_a_txt : Inode :=
  ⟨S_IFREG ||| 0o644, ⟨11, 7⟩, ⟨21, 8⟩, [104, 101, 108, 108, 111], []⟩

/-- The regular file `src/sub/b.txt` of `demo_fs`. -/
def demo_b_txt : Inode :=
  ⟨S_IFREG ||| 0o600, ⟨13, 11⟩, ⟨23, 12⟩, [1, 2, 3, 4, 5, 6, 7, 8], []⟩

/-- The symbolic link `src/link` of `demo_fs`. -/
def demo_link : Inode :=
  ⟨S_IFLNK ||| 0o777, ⟨14, 13⟩, ⟨24, 14⟩, [], "/etc/hosts".toList⟩

/-- The directory `src` of `demo_fs`. -/
def demo_src : Inode :=
  ⟨S_IFDIR ||| 0o755, ⟨10, 5⟩, ⟨20, 6⟩, [], []⟩

def demo_fs : FS :=
  [ ([], ⟨S_IFDIR ||| 0o755, ⟨1, 1⟩, ⟨1, 1⟩, [], []⟩),
    (["dst".toList], ⟨S_IFDIR ||| 0o755, ⟨2, 2⟩, ⟨2, 2⟩, [], []⟩),
    (["src".toList], demo_src),
    (["src".toList, "a.txt".toList], demo_a_txt),
    (["src".toList, "sub".toList], ⟨S_IFDIR ||| 0o700, ⟨12, 9⟩, ⟨22, 10⟩, [], []⟩),
    (["src".toList, "sub".toList, "b.txt".toList], demo_b_txt),
    (["src".toList, "link".toList], demo_link),
    (["empty".toList], ⟨S_IFDIR ||| 0o755, ⟨15, 15⟩, ⟨25, 16⟩, [], []⟩),
    (["pipe".toList], ⟨S_IFIFO ||| 0o644, ⟨16, 17⟩, ⟨26, 18⟩, [], []⟩) ]

/-- A process in the root directory of `demo_fs`; `faults` gives the failures
of its next system calls. -/
def demo (faults : List (Option Nat)) : World :=
  { cwd := []
    umask := 0o022
    now := ⟨100, 0⟩
    fs := demo_fs
    fds := []
    dirs := []
    errno := 0
    faults := faults
    trace := []
    stderr := []
    stack := "garbage".toList }

/-- The file system of `demo_fs` with a link `ln` to the directory `src`, with
a source directory `tree` that holds an empty directory `d` and a regular file
`f`, and with a destination `dst/tree` in which `d` is a regular file and `f`
a link to `t`, a name not in use. -/
def demo_links : World :=
  { demo [] with
    fs := demo_fs ++
      [ (["ln".toList], ⟨S_IFLNK ||| 0o777, ⟨30, 1⟩, ⟨30, 2⟩, [], "src".toList⟩),
        (["tree".toList], ⟨S_IFDIR ||| 0o755, ⟨31, 1⟩, ⟨31, 2⟩, [], []⟩),
        (["tree".toList, "d".toList], ⟨S_IFDIR ||| 0o755, ⟨32, 1⟩, ⟨32, 2⟩, [], []⟩),
        (["tree".toList, "f".toList], ⟨S_IFREG ||| 0o644, ⟨33, 1⟩, ⟨33, 2⟩, [1, 2, 3], []⟩),
        (["dst".toList, "tree".toList], ⟨S_IFDIR ||| 0o755, ⟨34, 1⟩, ⟨34, 2⟩, [], []⟩),
        (["dst".toList, "tree".toList, "d".toList],
          ⟨S_IFREG ||| 0o644, ⟨35, 1⟩, ⟨35, 2⟩, [9], []⟩),
        (["dst".toList, "tree".toList, "f".toList],
          ⟨S_IFLNK ||| 0o777, ⟨36, 1⟩, ⟨36, 2⟩, [], "t".toList⟩) ] }

/-- The state after `copy_discern("src", "dst")` in `demo []`. -/
def demo_copied : World :=
  ((copy_discern 8192 10 "src".toList "dst".toList (demo [])).world).getD (demo [])

/-- What `lstat` reports for the symbolic link `src/link` of `demo_fs`. -/
def demo_link_stat : stat := ⟨S_IFLNK ||| 0o777, ⟨14, 13⟩, ⟨24, 14⟩⟩

/-- What `lstat` reports for the regular file `src/a.txt` of `demo_fs`. -/
def demo_file_stat : stat := ⟨S_IFREG ||| 0o644, ⟨11, 7⟩, ⟨21, 8⟩⟩

/-- The state after `copy_file("src/a.txt", "dst")` in `demo []`, with the
chunk size 8192. -/
def demo_file_copied : World :=
  ((copy_file 8192 1 "src/a.txt".toList "dst".toList demo_file_stat (demo [])).world).getD
    (demo [])

/-- The state after `copy_slink("src/link", "dst")` in `demo []`. -/
def demo_link_copied : World :=
  ((copy_slink "src/link".toList "dst".toList demo_link_stat (demo [])).world).getD (demo [])

/-- What `lstat` reports for the empty directory `empty` of `demo_fs`. -/
def demo_empty_stat : stat := ⟨S_IFDIR ||| 0o755, ⟨15, 15⟩, ⟨25, 16⟩⟩

/-- The state after `copy_dir("empty", "dst")` in `demo []`. -/
def demo_dir_copied : World :=
  ((copy_dir (copy_discern 8192 9) 9 "empty".toList "dst".toList demo_empty_stat
    (demo [])).world).getD (demo [])

/-! ## Facts about paths -/

theorem components_ne_nil (p : CString) : components p ≠ [] := by
  cases p with
  | nil => simp [components]
  | cons c cs =>
    unfold components
    split
    · simp
    · split <;> simp

theorem components_no_slash (n : CString) (h : ∀ c ∈ n, c ≠ '/') :
    components n = [n] := by
  induction n with
  | nil => rfl
  | cons c cs ih =>
    have hc : c ≠ '/' := h c (by simp)
    have hcs : components cs = [cs] := ih (fun d hd => h d (by simp [hd]))
    simp [components, hc, hcs]

theorem components_append_slash (a b : CString) :
    components (a ++ '/' :: b) = components a ++ components b := by
  induction a with
  | nil => simp [components]
  | cons c cs ih =>
    by_cases hc : c = '/'
    · simp [components, hc, ih]
    · have hne := components_ne_nil cs
      cases hcs : components cs with
      | nil => exact absurd hcs hne
      | cons h t =>
        have e : components (cs ++ '/' :: b) = h :: (t ++ components b) := by
          rw [ih, hcs]; rfl
        show components (c :: (cs ++ '/' :: b)) = components (c :: cs) ++ components b
        simp only [components, hc, if_false, e, hcs, List.cons_append]

theorem rdropWhile_append_rtakeWhile (q : Char → Bool) (p : CString) :
    p.rdropWhile q ++ p.rtakeWhile q = p := by
  have h := List.takeWhile_append_dropWhile q p.reverse
  have h2 := congrArg List.reverse h
  rw [List.reverse_append, List.reverse_reverse] at h2
  exact h2

theorem rtakeWhile_all (q : Char → Bool) (p : CString) :
    ∀ c ∈ p.rtakeWhile q, q c = true := by
  intro c hc
  simp only [List.rtakeWhile, List.mem_reverse] at hc
  exact List.mem_takeWhile_imp hc

theorem components_getLast (p : CString) :
    (components p).getLast? = some (p.rtakeWhile (fun c => !isSlash c)) := by
  have hall := rtakeWhile_all (fun c => !isSlash c) p
  have hb : ∀ c ∈ p.rtakeWhile (fun c => !isSlash c), c ≠ '/' := by
    intro c hc hEq
    have := hall c hc
    simp [isSlash, hEq] at this
  have hsplit := rdropWhile_append_rtakeWhile (fun c => !isSlash c) p
  rcases List.eq_nil_or_concat (p.rdropWhile (fun c => !isSlash c)) with ha | ⟨a, x, ha⟩
  · rw [ha, List.nil_append] at hsplit
    have hb2 : ∀ c ∈ p, c ≠ '/' := by rw [hsplit] at hb; exact hb
    rw [hsplit, components_no_slash p hb2]
    rfl
  · have hne : p.rdropWhile (fun c => !isSlash c) ≠ [] := by rw [ha]; simp
    have hlast := List.rdropWhile_last_not (fun c => !isSlash c) p hne
    have hx : x = '/' := by
      simp only [ha, List.getLast_append_singleton] at hlast
      simpa [isSlash] using hlast
    have hp : p = a ++ '/' :: p.rtakeWhile (fun c => !isSlash c) := by
      conv_lhs => rw [← hsplit, ha, hx]
      simp
    conv_lhs => rw [hp, components_append_slash, components_no_slash _ hb]
    simp

theorem basename_eq_final_component (S : CString) (h : ∃ c ∈ S, c ≠ '/') :
    basename S = final_component S := by
  obtain ⟨c, hc, hne⟩ := h
  have h1 : S ≠ [] := by intro e; simp [e] at hc
  have h2 : S.rdropWhile isSlash ≠ [] := by
    intro e
    rw [List.rdropWhile_eq_nil_iff] at e
    have := e c hc
    simp [isSlash, hne] at this
  simp only [basename, h1, if_false, h2, final_component, components_getLast,
    Option.getD_some]

theorem basename_all_slashes (S : CString) (h1 : S ≠ []) (h : ∀ c ∈ S, c = '/') :
    basename S = ['/'] := by
  have h2 : S.rdropWhile isSlash = [] := by
    rw [List.rdropWhile_eq_nil_iff]
    intro c hc
    simp [isSlash, h c hc]
  simp only [basename, h1, if_false, h2, if_true]

theorem basename_length_le (S : CString) (h1 : S ≠ []) :
    (basename S).length ≤ S.length := by
  unfold basename
  rw [if_neg h1]
  split
  · cases S with
    | nil => exact absurd rfl h1
    | cons c cs => simp
  · exact Nat.le_trans (List.rtakeWhile_suffix _ _).length_le
      (List.rdropWhile_prefix _ _).length_le

theorem final_component_eq (S : CString) :
    final_component S = (S.rdropWhile isSlash).rtakeWhile (fun c => !isSlash c) := by
  simp only [final_component, components_getLast, Option.getD_some]

theorem final_component_proper (S : CString) (h : ∃ c ∈ S, c ≠ '/') :
    proper_name (final_component S) := by
  obtain ⟨c, hc, hne⟩ := h
  rw [final_component_eq]
  have h2 : S.rdropWhile isSlash ≠ [] := by
    intro e
    rw [List.rdropWhile_eq_nil_iff] at e
    have := e c hc
    simp [isSlash, hne] at this
  constructor
  · have hlast := List.rdropWhile_last_not isSlash S h2
    rcases List.eq_nil_or_concat (S.rdropWhile isSlash) with h0 | ⟨a, x, ha⟩
    · exact absurd h0 h2
    · have hx : isSlash x = false := by
        simp only [ha, List.concat_eq_append, List.getLast_append_singleton] at hlast
        simpa using hlast
      rw [ha, List.concat_eq_append, List.rtakeWhile_concat]
      simp [hx]
  · intro d hd hEq
    have := rtakeWhile_all _ _ d hd
    simp [isSlash, hEq] at this

/-! ## Path composition (C1, C10) -/

/-- C1, as stated, fails when the source path is made of '/' characters only:
`get_compath("/", "/dst")` is "/dst//", while the final path component of "/"
once its trailing '/' characters are ignored is empty, which gives "/dst/". -/
theorem get_compath_root_source :
    "/".toList ≠ [] ∧ "/dst".toList ≠ [] ∧
    get_compath "/".toList "/dst".toList = "/dst//".toList ∧
    get_compath "/".toList "/dst".toList ≠
      "/dst".toList ++ '/' :: final_component "/".toList := by
  decide

/-- C1, amended: for every source path `S` with a character other than '/' and
every destination path `D`, `get_compath S D` is `D ++ "/" ++ b` where `b` is
the final path component of `S` once its trailing '/' characters are ignored;
`b` is not empty and holds no '/', so that exactly one separator stands
between `D` and the name. For a non-empty `S` made of '/' characters only the
result is `D ++ "//"`. -/
theorem get_compath_spec (S D : CString) :
    ((∃ c ∈ S, c ≠ '/') →
      get_compath S D = D ++ '/' :: final_component S ∧
      proper_name (final_component S)) ∧
    (S ≠ [] → (∀ c ∈ S, c = '/') → get_compath S D = D ++ ['/', '/']) := by
  constructor
  · intro h
    exact ⟨by rw [get_compath, basename_eq_final_component S h], final_component_proper S h⟩
  · intro h1 h
    rw [get_compath, basename_all_slashes S h1 h]

theorem get_compath_spec_witness :
    (get_compath "/a/b/".toList "/dst".toList
        = "/dst".toList ++ '/' :: final_component "/a/b/".toList ∧
      proper_name (final_component "/a/b/".toList)) ∧
    get_compath "//".toList "/dst".toList = "/dst".toList ++ ['/', '/'] :=
  ⟨(get_compath_spec "/a/b/".toList "/dst".toList).1 ⟨'a', by decide, by decide⟩,
   (get_compath_spec "//".toList "/dst".toList).2 (by decide) (by decide)⟩

/-- C10: for a non-empty source path the basename is no longer than the path,
so the composed string and its terminating NUL fit in the
`dd_len+src_len+2` bytes that `get_compath` allocates; for the empty source
path the basename is "." and the string with its NUL needs `dd_len+3` bytes,
one more than the `dd_len+2` allocated. -/
theorem get_compath_fits (S D : CString) :
    (S ≠ [] →
      strlen (basename S) ≤ strlen S ∧
      strlen (get_compath S D) + 1 ≤ get_compath_sz S D) ∧
    (strlen (get_compath [] D) + 1 = strlen D + 3 ∧ get_compath_sz [] D = strlen D + 2) := by
  constructor
  · intro h
    have hb := basename_length_le S h
    refine ⟨hb, ?_⟩
    simp only [strlen, get_compath, get_compath_sz, List.length_append, List.length_cons]
    omega
  · simp [strlen, get_compath, get_compath_sz, basename]

theorem get_compath_fits_witness :
    strlen (basename "/a/b/".toList) ≤ strlen "/a/b/".toList ∧
    strlen (get_compath "/a/b/".toList "/dst".toList) + 1
      ≤ get_compath_sz "/a/b/".toList "/dst".toList :=
  (get_compath_fits "/a/b/".toList "/dst".toList).1 (by decide)

/-! ## Facts about the file system -/

theorem fs_get_set_same (fs : FS) (k : Key) (i : Inode) : fs_get (fs_set fs k i) k = some i := by
  induction fs with
  | nil => simp [fs_set, fs_get]
  | cons e r ih =>
    obtain ⟨k', i'⟩ := e
    by_cases h : k' = k
    · simp [fs_set, fs_get, h]
    · simp [fs_set, fs_get, h, ih]

theorem fs_get_set_other (fs : FS) (k k' : Key) (i : Inode) (h : k' ≠ k) :
    fs_get (fs_set fs k i) k' = fs_get fs k' := by
  induction fs with
  | nil => simp [fs_set, fs_get, Ne.symm h]
  | cons e r ih =>
    obtain ⟨k0, i0⟩ := e
    by_cases h0 : k0 = k
    · subst h0
      simp [fs_set, fs_get, Ne.symm h]
    · simp only [fs_set, h0, if_false, fs_get, ih]

theorem foldl_max_le (l : List (Nat × List CString)) (m : Nat) :
    m ≤ l.foldl (fun m e => max m (e.1 + 1)) m ∧
    ∀ e ∈ l, e.1 < l.foldl (fun m e => max m (e.1 + 1)) m := by
  induction l generalizing m with
  | nil => simp
  | cons a r ih =>
    simp only [List.foldl_cons, List.mem_cons, forall_eq_or_imp]
    have h1 := (ih (max m (a.1 + 1))).1
    have h2 := (ih (max m (a.1 + 1))).2
    refine ⟨by omega, by omega, h2⟩

theorem dir_get_lt_fresh (dirs : List (Nat × List CString)) (s : Nat) (r : List CString)
    (h : dir_get dirs s = some r) : s < fresh_stream dirs := by
  unfold dir_get at h
  cases hf : dirs.find? (fun e => e.1 == s) with
  | none => simp [hf] at h
  | some e =>
    have hm := List.mem_of_find?_eq_some hf
    have hs := List.find?_some hf
    have : e.1 = s := by simpa using hs
    rw [← this]
    exact (foldl_max_le dirs 0).2 e hm

theorem dir_get_cons (dirs : List (Nat × List CString)) (s s' : Nat) (r : List CString) :
    dir_get ((s, r) :: dirs) s' = if s = s' then some r else dir_get dirs s' := by
  unfold dir_get
  by_cases h : s = s' <;> simp [List.find?_cons, h]

theorem dir_get_set (dirs : List (Nat × List CString)) (s s' : Nat) (r : List CString) :
    dir_get (dir_set dirs s r) s' =
      if s' = s then (dir_get dirs s).map (fun _ => r) else dir_get dirs s' := by
  induction dirs with
  | nil => simp [dir_get, dir_set]
  | cons e t ih =>
    obtain ⟨a, b⟩ := e
    have e1 : dir_set ((a, b) :: t) s r = (if a = s then (s, r) else (a, b)) :: dir_set t s r := rfl
    rw [e1]
    by_cases ha : a = s
    · subst ha
      by_cases hs : s' = a
      · subst hs; simp [dir_get_cons]
      · have hs2 : ¬ a = s' := fun h => hs h.symm
        simp only [if_true, dir_get_cons, hs2, if_false, hs, ih]
    · by_cases hs : s' = s
      · subst hs
        simp only [ha, if_false, dir_get_cons, ih, if_true]
      · simp only [ha, if_false, dir_get_cons, ih, hs]

theorem fresh_stream_set (dirs : List (Nat × List CString)) (s : Nat) (r : List CString) :
    fresh_stream (dir_set dirs s r) = fresh_stream dirs := by
  unfold fresh_stream dir_set
  generalize 0 = m
  induction dirs generalizing m with
  | nil => rfl
  | cons e t ih =>
    simp only [List.map_cons, List.foldl_cons]
    by_cases h : e.1 = s
    · simp only [h, if_true]; exact ih _
    · simp only [h, if_false]; exact ih _

theorem foldl_max_mono (l : List (Nat × List CString)) (m m' : Nat) (h : m ≤ m') :
    l.foldl (fun m e => max m (e.1 + 1)) m ≤ l.foldl (fun m e => max m (e.1 + 1)) m' := by
  induction l generalizing m m' with
  | nil => simpa
  | cons a t ih =>
    simp only [List.foldl_cons]
    exact ih _ _ (by omega)

theorem fresh_stream_cons (dirs : List (Nat × List CString)) (s : Nat) (r : List CString) :
    fresh_stream dirs ≤ fresh_stream ((s, r) :: dirs) ∧ s < fresh_stream ((s, r) :: dirs) := by
  unfold fresh_stream
  simp only [List.foldl_cons]
  have h1 := (foldl_max_le dirs (max 0 (s + 1))).1
  exact ⟨foldl_max_mono dirs _ _ (by omega), by omega⟩

/-! ## Every system call is a step -/

theorem fs_le_refl (fs : FS) : fs_le fs fs :=
  fun _ i h => ⟨i, h, rfl, rfl⟩

theorem fs_le_trans {a b c : FS} (h1 : fs_le a b) (h2 : fs_le b c) : fs_le a c := by
  intro k i h
  obtain ⟨i1, hi1, e1, t1⟩ := h1 k i h
  obtain ⟨i2, hi2, e2, t2⟩ := h2 k i1 hi1
  exact ⟨i2, hi2, e2.trans e1, t2.trans t1⟩

/-- Storing at `k` an entry with the mode and target of the one that was
there, if any, keeps every entry. -/
theorem fs_le_set (fs : FS) (k : Key) (i' : Inode)
    (hmode : ∀ i, fs_get fs k = some i → i'.st_mode = i.st_mode ∧ i'.target = i.target) :
    fs_le fs (fs_set fs k i') := by
  intro k0 i0 h
  by_cases hk : k0 = k
  · subst hk
    exact ⟨i', fs_get_set_same _ _ _, hmode i0 h⟩
  · exact ⟨i0, by rw [fs_get_set_other _ _ _ _ hk]; exact h, rfl, rfl⟩

theorem Step.refl (w : World) : Step w w :=
  ⟨rfl, fs_le_refl _, List.prefix_refl _, fun _ _ => rfl, Nat.le_refl _,
    List.prefix_refl _⟩

theorem Step.trans {a b c : World} (h1 : Step a b) (h2 : Step b c) : Step a c := by
  refine ⟨h2.cwd.trans h1.cwd, fs_le_trans h1.fs h2.fs, h1.err.trans h2.err, ?_,
    Nat.le_trans h1.fresh h2.fresh, h1.trace.trans h2.trace⟩
  intro s hs
  rw [h2.dirs s (Nat.lt_of_lt_of_le hs h1.fresh), h1.dirs s hs]

theorem step_same_fs (w w' : World) (hcwd : w'.cwd = w.cwd) (hfs : w'.fs = w.fs)
    (herr : w.stderr <+: w'.stderr) (hdirs : w'.dirs = w.dirs)
    (htrace : w.trace <+: w'.trace) : Step w w' := by
  refine ⟨hcwd, ?_, herr, ?_, ?_, htrace⟩
  · rw [hfs]; exact fs_le_refl _
  · intro s _; rw [hdirs]
  · rw [hdirs]

theorem step_set_fs (w w' : World) (k : Key) (i' : Inode) (hcwd : w'.cwd = w.cwd)
    (hfs : w'.fs = fs_set w.fs k i')
    (hmode : ∀ i, fs_get w.fs k = some i → i'.st_mode = i.st_mode ∧ i'.target = i.target)
    (herr : w'.stderr = w.stderr) (hdirs : w'.dirs = w.dirs)
    (htrace : w'.trace = w.trace) : Step w w' := by
  refine ⟨hcwd, ?_, ?_, ?_, ?_, ?_⟩
  · rw [hfs]; exact fs_le_set _ _ _ hmode
  · rw [herr]
  · intro s _; rw [hdirs]
  · rw [hdirs]
  · rw [htrace]

theorem step_enter (ev : Event) (w : World) : Step w (enter ev w) :=
  step_same_fs _ _ rfl rfl (List.prefix_refl _) rfl (List.prefix_append _ _)

theorem step_set_errno (e : Nat) (w : World) : Step w (set_errno e w) :=
  step_same_fs _ _ rfl rfl (List.prefix_refl _) rfl (List.prefix_refl _)

theorem step_eprint (m : Msg) (w : World) : Step w (eprint m w) :=
  step_same_fs _ _ rfl rfl (List.prefix_append _ _) rfl (List.prefix_refl _)

/-- The three ways a system call ends: with an injected error, which is not
EEXIST, with the error its body computes, or with what its body computes. -/
theorem syscall_outcome {α : Type} (ev : Event) (body : World → Except Nat (α × World))
    (w : World) :
    (∃ e, e ≠ EEXIST ∧ syscall ev body w = (none, set_errno e (enter ev w))) ∨
    (∃ e, body (enter ev w) = .error e ∧ syscall ev body w = (none, set_errno e (enter ev w))) ∨
    (∃ a w1, body (enter ev w) = .ok (a, w1) ∧ syscall ev body w = (some a, w1)) := by
  unfold syscall
  cases hi : injected w with
  | some e =>
    left
    refine ⟨e, ?_, rfl⟩
    unfold injected at hi
    split at hi
    · split at hi
      · cases hi
      · rename_i hne
        cases hi
        exact hne
    · cases hi
  | none =>
    right
    cases hb : body (enter ev w) with
    | error e => exact Or.inl ⟨e, rfl, rfl⟩
    | ok x =>
      obtain ⟨a, w1⟩ := x
      exact Or.inr ⟨a, w1, rfl, rfl⟩

/-- The two ways a system call ends: with an error code in `errno`, or with
what its body computes. -/
theorem syscall_cases {α : Type} (ev : Event) (body : World → Except Nat (α × World))
    (w : World) :
    (∃ e, syscall ev body w = (none, set_errno e (enter ev w))) ∨
    (∃ a w1, body (enter ev w) = .ok (a, w1) ∧ syscall ev body w = (some a, w1)) := by
  rcases syscall_outcome ev body w with ⟨e, -, h⟩ | ⟨e, -, h⟩ | h
  · exact Or.inl ⟨e, h⟩
  · exact Or.inl ⟨e, h⟩
  · exact Or.inr h

theorem syscall_step {α : Type} (ev : Event) (body : World → Except Nat (α × World))
    (hb : ∀ w a w1, body w = .ok (a, w1) → Step w w1) (w : World) :
    Step w (syscall ev body w).2 := by
  rcases syscall_cases ev body w with ⟨e, h⟩ | ⟨a, w1, h1, h2⟩
  · rw [h]; exact (step_enter ev w).trans (step_set_errno e _)
  · rw [h2]; exact (step_enter ev w).trans (hb _ _ _ h1)

theorem lookup_at_get (w : World) (last : Bool) (path : CString) (k : Key) (i : Inode)
    (h : lookup_at w last path = .ok (k, i)) :
    resolve w last path = .ok k ∧ fs_get w.fs k = some i := by
  unfold lookup_at at h
  split at h
  · cases h
  · rename_i k0 hr
    split at h
    · cases h
    · rename_i i0 hi
      cases h
      exact ⟨hr, hi⟩

theorem lookup_at_of (w : World) (last : Bool) (path : CString) (k : Key) (i : Inode)
    (hr : resolve w last path = .ok k) (hi : fs_get w.fs k = some i) :
    lookup_at w last path = .ok (k, i) := by
  unfold lookup_at
  rw [hr]
  simp only [hi]

theorem lookup_new_get (w : World) (path : CString) (k : Key)
    (h : lookup_new w path = .ok k) : resolve w false path = .ok k ∧ fs_get w.fs k = none := by
  unfold lookup_new at h
  split at h
  · cases h
  · rename_i k0 hr
    split at h
    · rename_i hi
      split at h
      · cases h
      · cases h; exact ⟨hr, hi⟩
    · cases h

theorem sys_lstat_step (path : CString) (w : World) : Step w (sys_lstat path w).2 := by
  apply syscall_step
  intro w a w1 h
  split at h
  · cases h
  · cases h; exact Step.refl _

theorem sys_readlink_step (path : CString) (n : Nat) (w : World) :
    Step w (sys_readlink path n w).2 := by
  apply syscall_step
  intro w a w1 h
  split at h
  · cases h
  · split at h
    · cases h; exact Step.refl _
    · cases h

theorem sys_open_rdonly_step (path : CString) (w : World) :
    Step w (sys_open_rdonly path w).2 := by
  apply syscall_step
  intro w a w1 h
  split at h
  · cases h
  · cases h
    exact step_same_fs _ _ rfl rfl (List.prefix_refl _) rfl (List.prefix_refl _)

theorem sys_open_creat_step (path : CString) (mode : Nat) (w : World) :
    Step w (sys_open_creat path mode w).2 := by
  apply syscall_step
  intro w a w1 h
  split at h
  · cases h
  · rename_i k hr
    split at h
    · rename_i i hi
      split at h
      · cases h
      · split at h
        · cases h
          exact step_set_fs _ _ k _ rfl rfl
            (fun i0 h0 => by rw [hi] at h0; cases h0; exact ⟨rfl, rfl⟩) rfl rfl rfl
        · cases h
          exact step_same_fs _ _ rfl rfl (List.prefix_refl _) rfl (List.prefix_refl _)
    · rename_i hi
      split at h
      · cases h
      · cases h
        exact step_set_fs _ _ k _ rfl rfl
          (fun i0 h0 => by rw [hi] at h0; cases h0) rfl rfl rfl

theorem sys_symlink_step (target path : CString) (w : World) :
    Step w (sys_symlink target path w).2 := by
  apply syscall_step
  intro w a w1 h
  split at h
  · cases h
  · split at h
    · cases h
    · rename_i k hk
      cases h
      exact step_set_fs _ _ k _ rfl rfl
        (fun i0 h0 => by rw [(lookup_new_get w path k hk).2] at h0; cases h0) rfl rfl rfl

theorem sys_mkdir_step (path : CString) (mode : Nat) (w : World) :
    Step w (sys_mkdir path mode w).2 := by
  apply syscall_step
  intro w a w1 h
  split at h
  · cases h
  · rename_i k hk
    cases h
    exact step_set_fs _ _ k _ rfl rfl
      (fun i0 h0 => by rw [(lookup_new_get w path k hk).2] at h0; cases h0) rfl rfl rfl

theorem sys_utimensat_step (path : CString) (a m : timespec) (nf : Bool) (w : World) :
    Step w (sys_utimensat path a m nf w).2 := by
  apply syscall_step
  intro w a w1 h
  split at h
  · cases h
  · rename_i k i hl
    cases h
    exact step_set_fs _ _ k _ rfl rfl
      (fun i0 h0 => by
        rw [(lookup_at_get w _ path k i hl).2] at h0; cases h0; exact ⟨rfl, rfl⟩) rfl rfl rfl

theorem sys_read_step (fd n : Nat) (w : World) : Step w (sys_read fd n w).2 := by
  apply syscall_step
  intro w a w1 h
  split at h
  · cases h
  · split at h
    · cases h
    · split at h
      · cases h
      · split at h
        · cases h
        · cases h
          exact step_same_fs _ _ rfl rfl (List.prefix_refl _) rfl (List.prefix_refl _)

theorem sys_write_step (fd : Nat) (bytes : List Nat) (w : World) :
    Step w (sys_write fd bytes w).2 := by
  apply syscall_step
  intro w a w1 h
  split at h
  · cases h
  · rename_i f hf
    split at h
    · cases h
    · split at h
      · cases h
      · rename_i i hi
        split at h
        · cases h
          exact step_set_fs _ _ f.key _ rfl rfl
            (fun i0 h0 => by rw [hi] at h0; cases h0; exact ⟨rfl, rfl⟩) rfl rfl rfl
        · cases h
          exact step_same_fs _ _ rfl rfl (List.prefix_refl _) rfl (List.prefix_refl _)

theorem sys_futimens_step (fd : Nat) (a m : timespec) (w : World) :
    Step w (sys_futimens fd a m w).2 := by
  apply syscall_step
  intro w a w1 h
  split at h
  · cases h
  · rename_i f hf
    split at h
    · cases h
    · rename_i i hi
      cases h
      exact step_set_fs _ _ f.key _ rfl rfl
        (fun i0 h0 => by rw [hi] at h0; cases h0; exact ⟨rfl, rfl⟩) rfl rfl rfl

theorem sys_close_step (fd : Nat) (w : World) : Step w (sys_close fd w).2 := by
  unfold sys_close
  have h := syscall_step (.close fd) (fun w =>
      match fd_get w.fds fd with
      | none => .error EBADF
      | some _ => .ok ((), w)) (by
        intro w a w1 h
        simp only [] at h
        split at h
        · cases h
        · cases h; exact Step.refl _) w
  exact h.trans (step_same_fs _ _ rfl rfl (List.prefix_refl _) rfl (List.prefix_refl _))

theorem step_open_stream (w : World) (es : List CString) :
    Step w { w with dirs := (fresh_stream w.dirs, es) :: w.dirs } := by
  refine ⟨rfl, fs_le_refl _, List.prefix_refl _, ?_, (fresh_stream_cons _ _ _).1,
    List.prefix_refl _⟩
  intro s hs
  show dir_get ((fresh_stream w.dirs, es) :: w.dirs) s = dir_get w.dirs s
  rw [dir_get_cons, if_neg (by omega)]

theorem sys_opendir_step (path : CString) (w : World) : Step w (sys_opendir path w).2 := by
  apply syscall_step
  intro w a w1 h
  split at h
  · cases h
  · split at h
    · cases h; exact step_open_stream _ _
    · cases h

/-- Reading from a stream leaves the streams below it as they were. -/
theorem sys_readdir_step (s : Nat) (w0 w : World) (h0 : fresh_stream w0.dirs ≤ s)
    (h : Step w0 w) : Step w0 (sys_readdir s w).2 := by
  unfold sys_readdir
  split
  · exact h.trans (step_same_fs _ _ rfl rfl (List.prefix_refl _) rfl (List.prefix_append _ _))
  · exact h.trans (step_same_fs _ _ rfl rfl (List.prefix_refl _) rfl (List.prefix_append _ _))
  · rename_i n r hd
    refine ⟨h.cwd, h.fs, h.err, ?_, ?_, h.trace.trans (List.prefix_append _ _)⟩
    · intro s' hs'
      show dir_get (dir_set w.dirs s r) s' = dir_get w0.dirs s'
      rw [dir_get_set, if_neg (by omega), h.dirs s' hs']
    · show fresh_stream w0.dirs ≤ fresh_stream (dir_set w.dirs s r)
      rw [fresh_stream_set]; exact h.fresh

theorem steps_ok {w w1 : World} (h : Step w w1) : Result.steps_from w (.ok w1) := by
  intro w' hw; cases hw; exact h

theorem steps_exitmsg {w w1 : World} (fmt : String) (arg : CString) (h : Step w w1) :
    Result.steps_from w (EXITMSG fmt arg w1) := by
  intro w' hw; cases hw; exact h.trans (step_eprint _ _)

theorem steps_trans {w w1 : World} {r : Result} (h : Step w w1)
    (hr : Result.steps_from w1 r) : Result.steps_from w r :=
  fun w' hw => h.trans (hr w' hw)

theorem copy_file_loop_steps (BUFSIZ : Nat) (src cp : CString) (ds dd fuel : Nat) (w : World) :
    Result.steps_from w (copy_file_loop BUFSIZ src cp ds dd fuel w) := by
  induction fuel generalizing w with
  | zero => intro w' hw; cases hw
  | succ n ih =>
    unfold copy_file_loop
    have h1 := sys_read_step ds BUFSIZ w
    split
    · rename_i w1 hr
      rw [hr] at h1
      exact steps_exitmsg _ _ h1
    · rename_i buffer w1 hr
      rw [hr] at h1
      have h2 := sys_write_step dd buffer w1
      split
      · rename_i w2 hw
        rw [hw] at h2
        exact steps_exitmsg _ _ (h1.trans h2)
      · rename_i x w2 hw
        rw [hw] at h2
        split
        · exact steps_trans (h1.trans h2) (ih w2)
        · exact steps_ok (h1.trans h2)

theorem step_futimens_or_warn (dd : Nat) (a m : timespec) (msg : World → Msg) (w : World) :
    Step w (match sys_futimens dd a m w with
      | (none, w) => eprint (msg w) w
      | (some _, w) => w) := by
  have h := sys_futimens_step dd a m w
  split
  · rename_i w1 hr; rw [hr] at h; exact h.trans (step_eprint _ _)
  · rename_i x w1 hr; rw [hr] at h; exact h

theorem step_close_or_warn (fd : Nat) (msg : World → Msg) (w : World) :
    Step w (match sys_close fd w with
      | (none, w) => eprint (msg w) w
      | (some _, w) => w) := by
  have h := sys_close_step fd w
  split
  · rename_i w1 hr; rw [hr] at h; exact h.trans (step_eprint _ _)
  · rename_i x w1 hr; rw [hr] at h; exact h

theorem step_utimensat_or_warn (p : CString) (a m : timespec) (nf : Bool) (msg : World → Msg)
    (w : World) :
    Step w (match sys_utimensat p a m nf w with
      | (none, w) => eprint (msg w) w
      | (some _, w) => w) := by
  have h := sys_utimensat_step p a m nf w
  split
  · rename_i w1 hr; rw [hr] at h; exact h.trans (step_eprint _ _)
  · rename_i x w1 hr; rw [hr] at h; exact h

theorem copy_file_steps (BUFSIZ fuel : Nat) (src dst : CString) (st : stat) (w : World) :
    Result.steps_from w (copy_file BUFSIZ fuel src dst st w) := by
  unfold copy_file
  have h1 := sys_open_rdonly_step src w
  split
  · rename_i w1 hr
    rw [hr] at h1
    exact steps_exitmsg _ _ h1
  · rename_i ds w1 hr
    rw [hr] at h1
    have h2 := sys_open_creat_step (get_compath src dst) st.st_mode w1
    simp only []
    split
    · rename_i w2 hw
      rw [hw] at h2
      exact steps_exitmsg _ _ (h1.trans h2)
    · rename_i dd w2 hw
      rw [hw] at h2
      have h3 := copy_file_loop_steps BUFSIZ src (get_compath src dst) ds dd fuel w2
      split
      · rename_i w3 hl
        rw [hl] at h3
        have h3' := h3 w3 rfl
        refine steps_ok ((h1.trans h2).trans (h3'.trans ?_))
        exact (step_futimens_or_warn dd _ _ _ w3).trans
          ((step_close_or_warn ds _ _).trans (step_close_or_warn dd _ _))
      · exact steps_trans (h1.trans h2) h3

theorem copy_slink_steps (src dst : CString) (st : stat) (w : World) :
    Result.steps_from w (copy_slink src dst st w) := by
  unfold copy_slink
  have h1 := sys_readlink_step src MAXPATH w
  split
  rename_i r w1 hr
  rw [hr] at h1
  simp only []
  split
  · exact steps_exitmsg _ _ h1
  · generalize (match r with | none => w1.stack | some b => b) = buffer
    have h2 := sys_symlink_step buffer (get_compath src dst) w1
    split
    · rename_i w2 hs
      rw [hs] at h2
      split
      · exact steps_ok ((h1.trans h2).trans ((step_set_errno EEXIST w2).trans (step_eprint _ _)))
      · exact steps_exitmsg _ _ ((h1.trans h2).trans (step_set_errno EEXIST w2))
    · rename_i x w2 hs
      rw [hs] at h2
      have h3 := sys_lstat_step src w2
      split
      · rename_i w3 hl
        rw [hl] at h3
        exact steps_ok ((h1.trans h2).trans (h3.trans (step_eprint _ _)))
      · rename_i napoli w3 hl
        rw [hl] at h3
        have h4 := sys_utimensat_step (get_compath src dst) ⟨napoli.st_atim.tv_sec, 0⟩
          ⟨napoli.st_mtim.tv_sec, 0⟩ true w3
        split
        · rename_i w4 hu
          rw [hu] at h4
          exact steps_ok ((h1.trans h2).trans (h3.trans (h4.trans (step_eprint _ _))))
        · rename_i x4 w4 hu
          rw [hu] at h4
          exact steps_ok ((h1.trans h2).trans (h3.trans h4))

theorem syscall_ok {α : Type} (ev : Event) (body : World → Except Nat (α × World))
    (w w1 : World) (a : α) (h : syscall ev body w = (some a, w1)) :
    body (enter ev w) = .ok (a, w1) := by
  rcases syscall_cases ev body w with ⟨e, h'⟩ | ⟨a', w1', h1, h2⟩
  · rw [h'] at h; cases h
  · rw [h2] at h; cases h; exact h1

theorem resolve_congr (w w' : World) (last : Bool) (path : CString) (hfs : w'.fs = w.fs)
    (hcwd : w'.cwd = w.cwd) : resolve w' last path = resolve w last path := by
  unfold resolve
  rw [hfs, hcwd]

theorem lookup_at_congr (w w' : World) (last : Bool) (path : CString) (hfs : w'.fs = w.fs)
    (hcwd : w'.cwd = w.cwd) : lookup_at w' last path = lookup_at w last path := by
  unfold lookup_at
  rw [resolve_congr w w' last path hfs hcwd, hfs]

theorem lookup_congr (w w' : World) (path : CString) (hfs : w'.fs = w.fs)
    (hcwd : w'.cwd = w.cwd) : lookup w' path = lookup w path :=
  lookup_at_congr w w' false path hfs hcwd

theorem lookup_follow_congr (w w' : World) (path : CString) (hfs : w'.fs = w.fs)
    (hcwd : w'.cwd = w.cwd) : lookup_follow w' path = lookup_follow w path :=
  lookup_at_congr w w' true path hfs hcwd

theorem sys_opendir_ok (path : CString) (w w3 : World) (s : Nat)
    (h : sys_opendir path w = (some s, w3)) :
    ∃ k i, lookup_follow w path = .ok (k, i) ∧ S_ISDIR i.st_mode = true ∧
      s = fresh_stream w.dirs ∧
      dir_get w3.dirs s = some (['.'] :: ['.', '.'] :: fs_children w.fs k) := by
  have hb := syscall_ok _ _ _ _ _ h
  simp only [] at hb
  rw [lookup_follow_congr w (enter (.opendir path) w) path rfl rfl] at hb
  split at hb
  · cases hb
  · rename_i k i hl
    split at hb
    · rename_i hd
      cases hb
      refine ⟨k, i, hl, hd, rfl, ?_⟩
      show dir_get ((fresh_stream w.dirs, _) :: w.dirs) (fresh_stream w.dirs) = _
      rw [dir_get_cons, if_pos rfl]
      rfl
    · cases hb

theorem copy_dir_loop_steps (rec : CString → CString → World → Result)
    (hrec : ∀ s d w, Result.steps_from w (rec s d w)) (sd dd : CString) (s : Nat)
    (w0 : World) (h0 : fresh_stream w0.dirs ≤ s) (fuel : Nat) (w : World) (h : Step w0 w) :
    Result.steps_from w0 (copy_dir_loop rec sd dd s fuel w) := by
  induction fuel generalizing w with
  | zero => intro w' hw; cases hw
  | succ n ih =>
    unfold copy_dir_loop
    have h1 := sys_readdir_step s w0 w h0 h
    split
    · rename_i w1 hr
      rw [hr] at h1
      exact steps_ok h1
    · rename_i d_name w1 hr
      rw [hr] at h1
      split
      · exact ih w1 h1
      · have h2 := hrec (sd ++ '/' :: d_name) dd w1
        split
        · rename_i w2 hc
          rw [hc] at h2
          exact ih w2 (h1.trans (h2 w2 rfl))
        · exact steps_trans h1 h2

theorem copy_dir_fill_steps (rec : CString → CString → World → Result)
    (hrec : ∀ s d w, Result.steps_from w (rec s d w)) (fuel : Nat) (sd dd : CString)
    (st : stat) (w : World) : Result.steps_from w (copy_dir_fill rec fuel sd dd st w) := by
  unfold copy_dir_fill
  have h1 := step_utimensat_or_warn dd st.st_atim st.st_mtim false
    (fun w => ⟨"copy_dir(): utimensat() error on %s\n", dd, some w.errno⟩) w
  simp only [] at h1 ⊢
  generalize (match sys_utimensat dd st.st_atim st.st_mtim false w with
    | (none, w) => eprint ⟨"copy_dir(): utimensat() error on %s\n", dd, some w.errno⟩ w
    | (some _, w) => w) = w2 at h1 ⊢
  have h2 := sys_opendir_step sd w2
  split
  · rename_i w3 ho
    rw [ho] at h2
    exact steps_exitmsg _ _ (h1.trans h2)
  · rename_i s w3 ho
    rw [ho] at h2
    obtain ⟨k, i, -, -, hs, -⟩ := sys_opendir_ok sd w2 w3 s ho
    have hle : fresh_stream w.dirs ≤ s := by rw [hs]; exact h1.fresh
    exact copy_dir_loop_steps rec hrec sd dd s w hle fuel w3 (h1.trans h2)

theorem copy_dir_steps (rec : CString → CString → World → Result)
    (hrec : ∀ s d w, Result.steps_from w (rec s d w)) (fuel : Nat) (sd dd : CString)
    (st : stat) (w : World) : Result.steps_from w (copy_dir rec fuel sd dd st w) := by
  unfold copy_dir
  have h1 := sys_mkdir_step (get_compath sd dd) st.st_mode w
  simp only []
  split
  · rename_i w1 hm
    rw [hm] at h1
    split
    · exact steps_trans (h1.trans (step_eprint _ _)) (copy_dir_fill_steps rec hrec _ _ _ _ _)
    · exact steps_exitmsg _ _ h1
  · rename_i x w1 hm
    rw [hm] at h1
    exact steps_trans h1 (copy_dir_fill_steps rec hrec _ _ _ _ _)

theorem copy_discern_steps (BUFSIZ fuel : Nat) (src dst : CString) (w : World) :
    Result.steps_from w (copy_discern BUFSIZ fuel src dst w) := by
  induction fuel generalizing src dst w with
  | zero => intro w' hw; cases hw
  | succ n ih =>
    unfold copy_discern
    have h1 := sys_lstat_step src w
    split
    · rename_i w1 hl
      rw [hl] at h1
      exact steps_exitmsg _ _ h1
    · rename_i napoli w1 hl
      rw [hl] at h1
      split
      · exact steps_trans h1 (copy_slink_steps _ _ _ _)
      · split
        · exact steps_trans h1 (copy_file_steps _ _ _ _ _ _)
        · split
          · exact steps_trans h1 (copy_dir_steps _ (fun s d w => ih s d w) _ _ _ _ _)
          · exact steps_ok (h1.trans (step_eprint _ _))

/-! ## Path resolution -/

theorem walk_zero (fs : FS) (last : Bool) :
    walk fs last 0 = walk_comps fs (fun _ _ _ => .error ELOOP) last := rfl

theorem walk_succ (fs : FS) (last : Bool) (n : Nat) :
    walk fs last (n + 1) =
      walk_comps fs (fun k target rest =>
        walk fs last n (if target.head? = some '/' then [] else k) (components target ++ rest))
        last := rfl

theorem walk_comps_mono (fs fs' : FS) (hfs : fs_le fs fs') (last : Bool)
    (F F' : Key → CString → List CString → Except Nat Key)
    (hF : ∀ k t rest r, F k t rest = .ok r → stays fs fs' last r → F' k t rest = .ok r)
    (cs : List CString) (k r : Key) (h : walk_comps fs F last k cs = .ok r)
    (hr : stays fs fs' last r) : walk_comps fs' F' last k cs = .ok r := by
  induction cs generalizing k with
  | nil => simpa [walk_comps] using h
  | cons c cs ih =>
    unfold walk_comps at h ⊢
    split at h
    · cases h
    · rename_i i hi
      obtain ⟨i', hi', hm, -⟩ := hfs _ _ hi
      rw [hi']
      simp only [hm]
      split at h
      · rename_i hd
        rw [if_pos hd]
        split at h
        · rename_i hc
          rw [if_pos hc]
          exact ih _ h
        · rename_i hc
          rw [if_neg hc]
          split at h
          · rename_i hc2
            rw [if_pos hc2]
            exact ih _ h
          · rename_i hc2
            rw [if_neg hc2]
            split at h
            · rename_i l hl
              obtain ⟨l', hl', hlm, hlt⟩ := hfs _ _ hl
              rw [hl']
              simp only [hlm, hlt]
              split at h
              · rename_i hfol
                rw [if_pos hfol]
                exact hF _ _ _ _ h hr
              · rename_i hfol
                rw [if_neg hfol]
                exact ih _ h
            · rename_i hl
              cases cs with
              | nil =>
                simp only [walk_comps] at h
                cases h
                have hno : ∀ l, fs_get fs' (k ++ [c]) = some l →
                    (S_ISLNK l.st_mode && (last || !([] : List CString).isEmpty)) = false := by
                  intro l hl'
                  rcases hr with e | e | e
                  · simp [e]
                  · exact absurd hl e
                  · simp [e l hl']
                cases hl' : fs_get fs' (k ++ [c]) with
                | none => simp [walk_comps]
                | some l =>
                  simp only [hno l hl']
                  simp [walk_comps]
              | cons d ds =>
                unfold walk_comps at h
                rw [hl] at h
                cases h
      · cases h

theorem walk_mono (fs fs' : FS) (hfs : fs_le fs fs') (last : Bool) (n : Nat) (k : Key)
    (cs : List CString) (r : Key) (h : walk fs last n k cs = .ok r)
    (hr : stays fs fs' last r) : walk fs' last n k cs = .ok r := by
  induction n generalizing k cs r with
  | zero =>
    rw [walk_zero] at h ⊢
    exact walk_comps_mono fs fs' hfs last _ _ (fun _ _ _ _ h _ => by cases h) cs k r h hr
  | succ n ih =>
    rw [walk_succ] at h ⊢
    exact walk_comps_mono fs fs' hfs last _ _ (fun k t rest r h hr => ih _ _ _ h hr) cs k r h hr

theorem resolve_mono (w w' : World) (hcwd : w'.cwd = w.cwd) (hfs : fs_le w.fs w'.fs)
    (last : Bool) (path : CString) (r : Key) (h : resolve w last path = .ok r)
    (hr : stays w.fs w'.fs last r) : resolve w' last path = .ok r := by
  unfold resolve at h ⊢
  split at h
  · cases h
  · rename_i hp
    rw [if_neg hp, hcwd]
    exact walk_mono _ _ hfs last _ _ _ _ h hr

/-- An entry stored where nothing was keeps every entry. -/
theorem fs_le_create (fs : FS) (k : Key) (inode : Inode) (hnone : fs_get fs k = none) :
    fs_le fs (fs_set fs k inode) :=
  fs_le_set fs k inode (fun i0 h0 => by rw [hnone] at h0; cases h0)

theorem lookup_at_updated (w w' : World) (last : Bool) (path : CString) (k : Key)
    (i i' : Inode) (hl : lookup_at w last path = .ok (k, i)) (hfs : w'.fs = fs_set w.fs k i')
    (hcwd : w'.cwd = w.cwd) (hm : i'.st_mode = i.st_mode) (ht : i'.target = i.target) :
    lookup_at w' last path = .ok (k, i') := by
  obtain ⟨hr, hi⟩ := lookup_at_get w last path k i hl
  have hle : fs_le w.fs w'.fs := by
    rw [hfs]
    exact fs_le_set _ _ _ (fun i0 h0 => by rw [hi] at h0; cases h0; exact ⟨hm, ht⟩)
  have hr' := resolve_mono w w' hcwd hle last path k hr
    (Or.inr (Or.inl (by rw [hi]; exact fun e => by cases e)))
  exact lookup_at_of w' last path k i' hr' (by rw [hfs, fs_get_set_same])

theorem lookup_updated (w w' : World) (path : CString) (k : Key) (i i' : Inode)
    (hl : lookup w path = .ok (k, i)) (hfs : w'.fs = fs_set w.fs k i')
    (hcwd : w'.cwd = w.cwd) (hm : i'.st_mode = i.st_mode) (ht : i'.target = i.target) :
    lookup w' path = .ok (k, i') :=
  lookup_at_updated w w' false path k i i' hl hfs hcwd hm ht

/-- An entry stored where nothing was leaves what a path names as it is. -/
theorem lookup_kept (w w' : World) (path : CString) (k kd : Key) (i x : Inode)
    (hl : lookup w path = .ok (k, i)) (hnone : fs_get w.fs kd = none)
    (hfs : w'.fs = fs_set w.fs kd x) (hcwd : w'.cwd = w.cwd) :
    lookup w' path = .ok (k, i) := by
  obtain ⟨hr, hi⟩ := lookup_at_get w false path k i hl
  have hne : k ≠ kd := by
    intro e; rw [e, hnone] at hi; cases hi
  have hle : fs_le w.fs w'.fs := by rw [hfs]; exact fs_le_create _ _ _ hnone
  have hr' := resolve_mono w w' hcwd hle false path k hr (Or.inl rfl)
  exact lookup_at_of w' false path k i hr' (by rw [hfs, fs_get_set_other _ _ _ _ hne]; exact hi)

theorem S_ISLNK_not_REG (m : Nat) (h : S_ISLNK m = true) : S_ISREG m = false := by
  simp only [S_ISLNK, S_ISREG, beq_iff_eq] at h ⊢
  rw [h]; decide

theorem S_ISDIR_not_LNK (m : Nat) (h : S_ISDIR m = true) : S_ISLNK m = false := by
  simp only [S_ISLNK, S_ISDIR, beq_iff_eq] at h ⊢
  rw [h]; decide

theorem S_ISDIR_not_REG (m : Nat) (h : S_ISDIR m = true) : S_ISREG m = false := by
  simp only [S_ISREG, S_ISDIR, beq_iff_eq] at h ⊢
  rw [h]; decide

theorem not_ok_exitmsg (fmt : String) (arg : CString) (w w' : World) :
    EXITMSG fmt arg w ≠ .ok w' := by
  intro h; cases h

theorem sys_lstat_world (path : CString) (w w1 : World) (st : stat)
    (h : sys_lstat path w = (some st, w1)) : w1 = enter (.lstat path) w := by
  have hb := syscall_ok _ _ _ _ _ h
  simp only [] at hb
  split at hb
  · cases hb
  · cases hb; rfl

/-- Path resolution at work in `demo_links`: "ln" names a link and "ln/a.txt"
the regular file "src/a.txt" behind it; `copy_discern("ln", "dst")` copies the
link as a link and `copy_discern("ln/sub", "dst")` copies the directory
"src/sub"; the copy of "tree" writes the bytes of "tree/f" through the link
"dst/tree/f" into the new file "dst/tree/t". -/
theorem demo_links_followed :
    type_at demo_links "ln".toList = some S_IFLNK ∧
    type_at demo_links "ln/a.txt".toList = some S_IFREG ∧
    (copy_discern 8192 10 "ln".toList "dst".toList demo_links).type_at "dst/ln".toList
      = some S_IFLNK ∧
    (copy_discern 8192 10 "ln/sub".toList "dst".toList demo_links).type_at
      "dst/sub/b.txt".toList = some S_IFREG ∧
    type_at demo_links "dst/tree/t".toList = none ∧
    (copy_discern 8192 10 "tree".toList "dst".toList demo_links).type_at "dst/tree/t".toList
      = some S_IFREG ∧
    (copy_discern 8192 10 "tree".toList "dst".toList demo_links).world.bind
      (fun w => data_at w "dst/tree/f".toList) = some [1, 2, 3] := by
  decide!

/-- C7: `copy_discern` aborts when `lstat` fails and otherwise routes on the
type of the entry: a symbolic link to `copy_slink`, a regular file to
`copy_file`, a directory to `copy_dir`. For any other type it only writes the
"Wrong file type" line: it returns normally, the file system, the open
descriptors and the open streams are as before, `lstat` is the only call it
issued, and the loop over the arguments goes on with the next one. -/
theorem copy_discern_dispatch (BUFSIZ fuel : Nat) (src dst : CString) (w : World) :
    (∀ w1, sys_lstat src w = (none, w1) →
      copy_discern BUFSIZ (fuel + 1) src dst w =
        .fatal (eprint ⟨"Error on gathering stat on %s", src, some w1.errno⟩ w1)) ∧
    (∀ napoli w1, sys_lstat src w = (some napoli, w1) →
      (S_ISLNK napoli.st_mode = true →
        copy_discern BUFSIZ (fuel + 1) src dst w = copy_slink src dst napoli w1) ∧
      (S_ISREG napoli.st_mode = true →
        copy_discern BUFSIZ (fuel + 1) src dst w = copy_file BUFSIZ fuel src dst napoli w1) ∧
      (S_ISDIR napoli.st_mode = true →
        copy_discern BUFSIZ (fuel + 1) src dst w =
          copy_dir (copy_discern BUFSIZ fuel) fuel src dst napoli w1) ∧
      (S_ISLNK napoli.st_mode = false → S_ISREG napoli.st_mode = false →
        S_ISDIR napoli.st_mode = false →
        copy_discern BUFSIZ (fuel + 1) src dst w =
          .ok (eprint ⟨"%s : Wrong file type\n", src, none⟩ w1) ∧
        w1.fs = w.fs ∧ w1.fds = w.fds ∧ w1.dirs = w.dirs ∧
        w1.trace = w.trace ++ [.lstat src] ∧
        ∀ rest, iterate_paths BUFSIZ (fuel + 1) dst (src :: rest) w =
          iterate_paths BUFSIZ (fuel + 1) dst rest
            (eprint ⟨"%s : Wrong file type\n", src, none⟩ w1))) := by
  constructor
  · intro w1 h
    simp only [copy_discern, h, EXITMSG]
  · intro napoli w1 h
    refine ⟨?_, ?_, ?_, ?_⟩
    · intro hl
      simp only [copy_discern, h, hl, if_true]
    · intro hr
      have hl : S_ISLNK napoli.st_mode = false := by
        cases hx : S_ISLNK napoli.st_mode
        · rfl
        · rw [S_ISLNK_not_REG _ hx] at hr; cases hr
      simp [copy_discern, h, hl, hr]
    · intro hd
      simp [copy_discern, h, S_ISDIR_not_LNK _ hd, S_ISDIR_not_REG _ hd, hd]
    · intro hl hr hd
      have e : copy_discern BUFSIZ (fuel + 1) src dst w =
          .ok (eprint ⟨"%s : Wrong file type\n", src, none⟩ w1) := by
        simp [copy_discern, h, hl, hr, hd]
      have hw := sys_lstat_world _ _ _ _ h
      refine ⟨e, ?_, ?_, ?_, ?_, ?_⟩
      · rw [hw]; rfl
      · rw [hw]; rfl
      · rw [hw]; rfl
      · rw [hw]; rfl
      · intro rest
        simp only [iterate_paths, e]

theorem copy_discern_dispatch_witness :
    copy_discern 8192 1 "pipe".toList "dst".toList (demo []) =
      .ok (eprint ⟨"%s : Wrong file type\n", "pipe".toList, none⟩
        (sys_lstat "pipe".toList (demo [])).2) ∧
    copy_discern 8192 1 "nothing".toList "dst".toList (demo []) =
      .fatal (eprint ⟨"Error on gathering stat on %s", "nothing".toList, some ENOENT⟩
        (sys_lstat "nothing".toList (demo [])).2) :=
  ⟨(((copy_discern_dispatch 8192 0 "pipe".toList "dst".toList (demo [])).2
      ⟨S_IFIFO ||| 0o644, ⟨16, 17⟩, ⟨26, 18⟩⟩ (sys_lstat "pipe".toList (demo [])).2
      (by decide)).2.2.2 (by decide) (by decide) (by decide)).1,
   (copy_discern_dispatch 8192 0 "nothing".toList "dst".toList (demo [])).1
      (sys_lstat "nothing".toList (demo [])).2 (by decide)⟩

/-! ## An existing destination directory (C8) -/

/-- C4 does not hold of the code: when `symlink` fails, whatever its error,
`copy_slink` stores EEXIST in `errno`, writes the "ignored copy" warning with
the text of EEXIST and returns normally. No error of `symlink` is fatal. -/
theorem copy_slink_symlink_failure (src dst : CString) (st : stat) (w w1 w2 : World)
    (b : CString) (h1 : sys_readlink src MAXPATH w = (some b, w1))
    (hlen : b.length ≠ MAXPATH)
    (h2 : sys_symlink b (get_compath src dst) w1 = (none, w2)) :
    copy_slink src dst st w =
      .ok (eprint ⟨"copy_slink(): ignored copy of %s : ", src, some EEXIST⟩
        { w2 with errno := EEXIST }) := by
  have hne : ¬ ((b.length : Int) = (MAXPATH : Nat)) := by
    intro e
    exact hlen (Int.ofNat_inj.mp e)
  simp only [copy_slink, h1, hne, if_false, h2]
  rfl

theorem copy_slink_symlink_failure_witness :
    (sys_symlink "/etc/hosts".toList "dst/link".toList
      (sys_readlink "src/link".toList MAXPATH (demo [none, some ENOSPC])).2).2.errno = ENOSPC ∧
    copy_slink "src/link".toList "dst".toList demo_link_stat (demo [none, some ENOSPC]) =
      .ok (eprint ⟨"copy_slink(): ignored copy of %s : ", "src/link".toList, some EEXIST⟩
        { (sys_symlink "/etc/hosts".toList "dst/link".toList
            (sys_readlink "src/link".toList MAXPATH (demo [none, some ENOSPC])).2).2
          with errno := EEXIST }) :=
  ⟨by decide,
   copy_slink_symlink_failure "src/link".toList "dst".toList demo_link_stat
    (demo [none, some ENOSPC])
    (sys_readlink "src/link".toList MAXPATH (demo [none, some ENOSPC])).2
    (sys_symlink "/etc/hosts".toList "dst/link".toList
      (sys_readlink "src/link".toList MAXPATH (demo [none, some ENOSPC])).2).2
    "/etc/hosts".toList (by decide) (by decide) (by decide)⟩

theorem sys_symlink_trace (target path : CString) (w : World) :
    Event.symlink target path ∈ (sys_symlink target path w).2.trace := by
  have hin : Event.symlink target path ∈ (enter (.symlink target path) w).trace := by
    simp [enter]
  rcases syscall_cases (.symlink target path) (fun w =>
      if target = [] then .error ENOENT
      else
        match lookup_new w path with
        | .error e => .error e
        | .ok k =>
          .ok ((), { w with fs := fs_set w.fs k ⟨S_IFLNK ||| 0o777, w.now, w.now, [], target⟩ }))
      w with ⟨e, h⟩ | ⟨a, w1, hb, h⟩
  · unfold sys_symlink
    rw [h]
    exact hin
  · unfold sys_symlink
    rw [h]
    split at hb
    · cases hb
    · split at hb
      · cases hb
      · cases hb
        exact hin

/-- C5 does not hold of the code when `readlink` reports an error: the value
-1 is not `MAXPATH`, so `copy_slink` goes on, calls `symlink` with what the
uninitialised buffer holds as target, and returns normally. -/
theorem copy_slink_readlink_failure (src dst : CString) (st : stat) (w w1 : World)
    (h : sys_readlink src MAXPATH w = (none, w1)) :
    ∃ w', copy_slink src dst st w = .ok w' ∧
      Event.symlink w1.stack (get_compath src dst) ∈ w'.trace := by
  have hne : ¬ ((-1 : Int) = (MAXPATH : Nat)) := by decide
  have htr := sys_symlink_trace w1.stack (get_compath src dst) w1
  simp only [copy_slink, h, hne, if_false]
  split
  · rename_i w2 hs
    rw [hs] at htr
    rw [if_pos (by decide)]
    exact ⟨_, rfl, htr⟩
  · rename_i x w2 hs
    rw [hs] at htr
    have h3 := sys_lstat_step src w2
    split
    · rename_i w3 hl3
      rw [hl3] at h3
      exact ⟨_, rfl, (h3.trans (step_eprint _ _)).trace.subset htr⟩
    · rename_i napoli w3 hl3
      rw [hl3] at h3
      have h4 := sys_utimensat_step (get_compath src dst) ⟨napoli.st_atim.tv_sec, 0⟩
        ⟨napoli.st_mtim.tv_sec, 0⟩ true w3
      split
      · rename_i w4 hu
        rw [hu] at h4
        exact ⟨_, rfl, (h3.trans (h4.trans (step_eprint _ _))).trace.subset htr⟩
      · rename_i x4 w4 hu
        rw [hu] at h4
        exact ⟨_, rfl, (h3.trans h4).trace.subset htr⟩

theorem copy_slink_readlink_failure_witness :
    (sys_readlink "src/link".toList MAXPATH (demo [some EIO])).2.errno = EIO ∧
    (copy_slink "src/link".toList "dst".toList demo_link_stat (demo [some EIO])).is_fatal = false ∧
    (copy_slink "src/link".toList "dst".toList demo_link_stat (demo [some EIO])).world.bind
      (fun w => target_at w "dst/link".toList) = some "garbage".toList ∧
    ∃ w', copy_slink "src/link".toList "dst".toList demo_link_stat (demo [some EIO]) = .ok w' ∧
      Event.symlink (sys_readlink "src/link".toList MAXPATH (demo [some EIO])).2.stack
        (get_compath "src/link".toList "dst".toList) ∈ w'.trace :=
  ⟨by decide, by decide, by decide,
   copy_slink_readlink_failure "src/link".toList "dst".toList demo_link_stat (demo [some EIO])
    (sys_readlink "src/link".toList MAXPATH (demo [some EIO])).2 (by decide)⟩

/-- A run of `copy_discern("src", "dst")` in which every call succeeds: the
link `src/link` has the times 14.000000013 and 24.000000014 and its copy
`dst/src/link` gets 14.000000000 and 24.000000000, while the regular file
`src/a.txt` keeps seconds and nanoseconds. -/
theorem demo_copied_times :
    (copy_discern 8192 10 "src".toList "dst".toList (demo [])).is_ok = true ∧
    demo_copied.stderr = [] ∧
    times_at (demo []) "src/link".toList = some (⟨14, 13⟩, ⟨24, 14⟩) ∧
    times_at demo_copied "dst/src/link".toList = some (⟨14, 0⟩, ⟨24, 0⟩) ∧
    times_at (demo []) "src/a.txt".toList = some (⟨11, 7⟩, ⟨21, 8⟩) ∧
    times_at demo_copied "dst/src/a.txt".toList = some (⟨11, 7⟩, ⟨21, 8⟩) := by
  decide!

/-! ## The copy loop (C2) -/

theorem eprint_not_quiet (m : Msg) (w w3 : World) (h : Step w w3) :
    (eprint m w3).stderr ≠ w.stderr := by
  intro e
  have h1 := h.err.length_le
  have h2 := congrArg List.length e
  simp only [eprint, List.length_append, List.length_singleton] at h2
  omega

theorem sys_readlink_world (path : CString) (n : Nat) (w w1 : World) (r : Option CString)
    (h : sys_readlink path n w = (r, w1)) : w1.fs = w.fs ∧ w1.cwd = w.cwd := by
  rcases syscall_cases (.readlink path n) _ w with ⟨e, he⟩ | ⟨a, w1', hb, he⟩
  · unfold sys_readlink at h
    rw [he] at h
    cases h
    exact ⟨rfl, rfl⟩
  · unfold sys_readlink at h
    rw [he] at h
    cases h
    split at hb
    · cases hb
    · split at hb
      · cases hb; exact ⟨rfl, rfl⟩
      · cases hb

theorem sys_symlink_eff (target path : CString) (w w1 : World) (x : Unit)
    (h : sys_symlink target path w = (some x, w1)) :
    ∃ kd inode, fs_get w.fs kd = none ∧ w1.fs = fs_set w.fs kd inode ∧ w1.cwd = w.cwd := by
  have hb := syscall_ok _ _ _ _ _ h
  simp only [] at hb
  split at hb
  · cases hb
  · split at hb
    · cases hb
    · rename_i k hk
      cases hb
      exact ⟨k, _, (lookup_new_get _ path k hk).2, rfl, rfl⟩

theorem sys_lstat_val (path : CString) (w w1 : World) (st : stat)
    (h : sys_lstat path w = (some st, w1)) :
    ∃ k i, lookup w path = .ok (k, i) ∧ st = ⟨i.st_mode, i.st_atim, i.st_mtim⟩ := by
  have hb := syscall_ok _ _ _ _ _ h
  simp only [] at hb
  rw [lookup_congr w (enter (.lstat path) w) path rfl rfl] at hb
  split at hb
  · cases hb
  · rename_i k i hl
    cases hb
    exact ⟨k, i, hl, rfl⟩

/-- A successful `utimensat` with `AT_SYMLINK_NOFOLLOW` sets the times of
the entry the path names. -/
theorem sys_utimensat_ok (path : CString) (a m : timespec) (w w1 : World)
    (x : Unit) (h : sys_utimensat path a m true w = (some x, w1)) :
    times_at w1 path = some (a, m) := by
  have hb := syscall_ok _ _ _ _ _ h
  simp only [] at hb
  split at hb
  · cases hb
  · rename_i k i hl
    cases hb
    have hu := lookup_updated (enter (.utimensat path a m true) w)
      { enter (.utimensat path a m true) w with
        fs := fs_set (enter (.utimensat path a m true) w).fs k
          { i with st_atim := a, st_mtim := m } }
      path k i { i with st_atim := a, st_mtim := m } hl rfl rfl rfl rfl
    unfold times_at
    rw [hu]

/-- C6 does not hold of the code for symbolic links: whenever `copy_slink`
returns with nothing written to the standard error stream (every call
succeeded, the times were reapplied), the times of the destination link are
the seconds of the source's times with zero nanoseconds, whatever the
nanoseconds of the source are. -/
theorem copy_slink_times (src dst : CString) (st : stat) (w w' : World) (k : Key) (i : Inode)
    (hsrc : lookup w src = .ok (k, i)) (h : copy_slink src dst st w = .ok w')
    (hq : w'.stderr = w.stderr) :
    times_at w' (get_compath src dst) =
      some (⟨i.st_atim.tv_sec, 0⟩, ⟨i.st_mtim.tv_sec, 0⟩) := by
  unfold copy_slink at h
  have s1 := sys_readlink_step src MAXPATH w
  split at h
  rename_i r w1 hr
  rw [hr] at s1
  obtain ⟨hfs1, hcwd1⟩ := sys_readlink_world _ _ _ _ _ hr
  simp only [] at h
  split at h
  · exact absurd h (not_ok_exitmsg _ _ _ _)
  · generalize (match r with | none => w1.stack | some b => b) = buffer at h
    have s2 := sys_symlink_step buffer (get_compath src dst) w1
    split at h
    · rename_i w2 hs
      rw [hs] at s2
      split at h
      · cases h
        exact absurd hq (eprint_not_quiet _ _ _ ((s1.trans s2).trans (step_set_errno EEXIST w2)))
      · exact absurd h (not_ok_exitmsg _ _ _ _)
    · rename_i x w2 hs
      rw [hs] at s2
      obtain ⟨kd, inode, hnone, hfs2, hcwd2⟩ := sys_symlink_eff _ _ _ _ _ hs
      have hl1 : lookup w1 src = .ok (k, i) := by
        rw [lookup_congr w w1 src hfs1 hcwd1]; exact hsrc
      have hl2 := lookup_kept w1 w2 src k kd i inode hl1 hnone hfs2 hcwd2
      have s3 := sys_lstat_step src w2
      split at h
      · rename_i w3 hl3
        rw [hl3] at s3
        cases h
        exact absurd hq (eprint_not_quiet _ _ _ ((s1.trans s2).trans s3))
      · rename_i napoli w3 hl3
        rw [hl3] at s3
        obtain ⟨k', i', hl', hnap⟩ := sys_lstat_val _ _ _ _ hl3
        have e : i' = i := by
          rw [hl2] at hl'
          cases hl'; rfl
        subst e
        have s4 := sys_utimensat_step (get_compath src dst) ⟨napoli.st_atim.tv_sec, 0⟩
          ⟨napoli.st_mtim.tv_sec, 0⟩ true w3
        split at h
        · rename_i w4 hu
          rw [hu] at s4
          cases h
          exact absurd hq (eprint_not_quiet _ _ _ ((s1.trans s2).trans (s3.trans s4)))
        · rename_i x4 w4 hu
          cases h
          rw [sys_utimensat_ok _ _ _ _ _ _ hu, hnap]

set_option maxRecDepth 100000 in
theorem copy_slink_times_witness :
    (times_at (demo []) "src/link".toList = some (⟨14, 13⟩, ⟨24, 14⟩) ∧
      get_compath "src/link".toList "dst".toList = "dst/link".toList ∧
      demo_link.st_atim = ⟨14, 13⟩ ∧ demo_link.st_mtim = ⟨24, 14⟩) ∧
    times_at demo_link_copied (get_compath "src/link".toList "dst".toList) =
      some (⟨demo_link.st_atim.tv_sec, 0⟩, ⟨demo_link.st_mtim.tv_sec, 0⟩) :=
  ⟨by decide,
   copy_slink_times "src/link".toList "dst".toList demo_link_stat (demo []) demo_link_copied
    ["src".toList, "link".toList] demo_link (by rfl) (by decide) (by decide)⟩

/-! ## The directory stream of `copy_dir` (C9) -/

theorem copy_dir_loop_keeps_stream (rec : CString → CString → World → Result)
    (hrec : ∀ s d w, Result.steps_from w (rec s d w)) (sd dd : CString) (s : Nat)
    (fuel : Nat) (w w' : World) (hd : ∃ r, dir_get w.dirs s = some r)
    (h : copy_dir_loop rec sd dd s fuel w = .ok w') : ∃ r, dir_get w'.dirs s = some r := by
  induction fuel generalizing w with
  | zero => simp [copy_dir_loop] at h
  | succ n ih =>
    obtain ⟨rem, hrem⟩ := hd
    have hkeep : ∃ r, dir_get (sys_readdir s w).2.dirs s = some r := by
      unfold sys_readdir
      rw [hrem]
      cases rem with
      | nil => exact ⟨[], hrem⟩
      | cons m r =>
        refine ⟨r, ?_⟩
        show dir_get (dir_set w.dirs s r) s = some r
        rw [dir_get_set, if_pos rfl, hrem]; rfl
    unfold copy_dir_loop at h
    split at h
    · rename_i w1 hr
      rw [hr] at hkeep
      cases h
      exact hkeep
    · rename_i d_name w1 hr
      rw [hr] at hkeep
      split at h
      · exact ih w1 hkeep h
      · have h2 := hrec (sd ++ '/' :: d_name) dd w1
        split at h
        · rename_i w2 hc
          rw [hc] at h2
          obtain ⟨r, hr1⟩ := hkeep
          have hs2 := (h2 w2 rfl).dirs s (dir_get_lt_fresh _ _ _ hr1)
          exact ih w2 ⟨r, by rw [hs2]; exact hr1⟩ h
        · rename_i r hnot
          exact (hnot w' h).elim

theorem copy_dir_fill_keeps_stream (rec : CString → CString → World → Result)
    (hrec : ∀ s d w, Result.steps_from w (rec s d w)) (fuel : Nat)
    (sd dd : CString) (st : stat) (w1 w' : World)
    (h : copy_dir_fill rec fuel sd dd st w1 = .ok w') :
    ∃ s, fresh_stream w1.dirs ≤ s ∧ ∃ r, dir_get w'.dirs s = some r := by
  unfold copy_dir_fill at h
  have h1 := step_utimensat_or_warn dd st.st_atim st.st_mtim false
    (fun w => ⟨"copy_dir(): utimensat() error on %s\n", dd, some w.errno⟩) w1
  simp only [] at h1 h
  generalize (match sys_utimensat dd st.st_atim st.st_mtim false w1 with
    | (none, w) => eprint ⟨"copy_dir(): utimensat() error on %s\n", dd, some w.errno⟩ w
    | (some _, w) => w) = w2 at h1 h
  split at h
  · exact absurd h (not_ok_exitmsg _ _ _ _)
  · rename_i s w3 ho
    obtain ⟨k, i, -, -, hs, hd⟩ := sys_opendir_ok sd w2 w3 s ho
    exact ⟨s, by rw [hs]; exact h1.fresh,
      copy_dir_loop_keeps_stream rec hrec sd dd s fuel w3 w' ⟨_, hd⟩ h⟩

/-- C9 does not hold of `copy_dir`: whenever `copy_dir` returns normally, a
directory stream that was not open at entry is open at the return (the one
`opendir` gave for the source directory, which is never closed). -/
theorem copy_dir_stream_left_open (BUFSIZ f fuel : Nat) (sd dd : CString) (st : stat)
    (w w' : World) (h : copy_dir (copy_discern BUFSIZ f) fuel sd dd st w = .ok w') :
    ∃ s, dir_get w.dirs s = none ∧ ∃ r, dir_get w'.dirs s = some r := by
  have hrec : ∀ s d w, Result.steps_from w (copy_discern BUFSIZ f s d w) :=
    fun s d w => copy_discern_steps BUFSIZ f s d w
  have hm := sys_mkdir_step (get_compath sd dd) st.st_mode w
  have fin : ∀ w1, Step w w1 →
      copy_dir_fill (copy_discern BUFSIZ f) fuel sd (get_compath sd dd) st w1 = .ok w' →
      ∃ s, dir_get w.dirs s = none ∧ ∃ r, dir_get w'.dirs s = some r := by
    intro w1 hs1 hfill
    obtain ⟨s, hle, hr⟩ := copy_dir_fill_keeps_stream _ hrec _ _ _ _ _ _ hfill
    refine ⟨s, ?_, hr⟩
    cases hg : dir_get w.dirs s with
    | none => rfl
    | some r0 =>
      have := dir_get_lt_fresh _ _ _ hg
      have := hs1.fresh
      omega
  unfold copy_dir at h
  simp only [] at h
  split at h
  · rename_i w1 hmk
    rw [hmk] at hm
    split at h
    · exact fin _ (hm.trans (step_eprint _ _)) h
    · exact absurd h (not_ok_exitmsg _ _ _ _)
  · rename_i x w1 hmk
    rw [hmk] at hm
    exact fin _ hm h

set_option maxRecDepth 100000 in
theorem copy_dir_stream_left_open_witness :
    ((demo []).dirs = [] ∧ (demo []).fds = [] ∧ demo_dir_copied.dirs = [(0, [])] ∧
      demo_dir_copied.fds = [] ∧ demo_file_copied.fds = [] ∧ demo_file_copied.dirs = [] ∧
      demo_link_copied.fds = [] ∧ demo_link_copied.dirs = []) ∧
    ∃ s, dir_get (demo []).dirs s = none ∧ ∃ r, dir_get demo_dir_copied.dirs s = some r :=
  ⟨by decide,
   copy_dir_stream_left_open 8192 9 9 "empty".toList "dst".toList demo_empty_stat (demo [])
    demo_dir_copied (by decide)⟩

end Filecopy
